import Mathlib

/-!
Verification development for the bilibili-analyzer pipeline
(scripts/frame_similarity.py, scripts/ai_analyzer.py,
scripts/incremental_report.py, scripts/models.py).

Python strings are modelled as lists of characters (`Str`), Python floats
as rationals, Python `int` as `Int`/`Nat`, and the external collaborators
(the perceptual-hash primitive, the vision-analysis CLI, the UUID
generator, the clock) as explicit oracle parameters.  File contents are
modelled as the byte string held by the report file.
-/

namespace MoYu

/-- Python strings, modelled as lists of characters. -/
abbrev Str := List Char

/-- Python `int(q)` on a rational: truncation toward zero. -/
def pyInt (q : ℚ) : ℤ := if 0 ≤ q then ⌊q⌋ else ⌈q⌉

/-- Decimal digit characters of a natural number, with explicit fuel so the
definition is structural (fuel `n + 1` always suffices). -/
def natCharsAux : ℕ → ℕ → Str
  | 0, _ => []
  | fuel + 1, n =>
    if n < 10 then [Nat.digitChar n]
    else natCharsAux fuel (n / 10) ++ [Nat.digitChar (n % 10)]

/-- Decimal representation of a natural number (Python `str(n)` for `n ≥ 0`). -/
def natChars (n : ℕ) : Str := natCharsAux (n + 1) n

/-- Python `str(i)` for an integer. -/
def intChars (i : ℤ) : Str :=
  if i < 0 then '-' :: natChars (-i).toNat else natChars i.toNat

/-- Python `f"{i:02d}"`: zero-pad to two characters. -/
def pad2 (i : ℤ) : Str :=
  if 0 ≤ i ∧ i < 10 then '0' :: natChars i.toNat else intChars i

/-- Helper for `format_thousands`: walk the reversed digit string and put a
comma after every third digit. -/
def commaRev : ℕ → Str → Str
  | _, [] => []
  | i, c :: cs =>
    if i ≠ 0 ∧ i % 3 = 0 then ',' :: c :: commaRev (i + 1) cs
    else c :: commaRev (i + 1) cs

/-- Python `f"{n:,}"` on a natural number: digits grouped in threes. -/
def commaNat (n : ℕ) : Str := (commaRev 0 (natChars n).reverse).reverse

/-- Python `f"{n:,}"` on an integer. -/
def format_thousands (n : ℤ) : Str :=
  if n < 0 then '-' :: commaNat (-n).toNat else commaNat n.toNat

/-- Python `sep.join(parts)`. -/
def pyJoin (sep : Str) : List Str → Str
  | [] => []
  | [s] => s
  | s :: s₁ :: rest => s ++ sep ++ pyJoin sep (s₁ :: rest)

/-- Number of positions at which `p` occurs in a string (counting possibly
overlapping occurrences once per starting position). -/
def countSub (p : Str) : Str → ℕ
  | [] => 0
  | c :: rest => (if p <+: (c :: rest) then 1 else 0) + countSub p rest

/-- Number of occurrences of the two-character image-embed marker `![`.
Each frame section of the report embeds exactly one image, so this marker
counts frame sections. -/
def countMk : Str → ℕ
  | [] => 0
  | a :: rest => (if a = '!' ∧ rest.head? = some '[' then 1 else 0) + countMk rest

/-- Python `content.replace(old, new)` for a non-empty pattern `p`: replace
every occurrence, scanning left to right and never re-examining replaced
text.  Structural fuel (`length + 1` suffices) keeps it kernel-computable. -/
def replacePyAux (p s : Str) : ℕ → Str → Str
  | 0, l => l
  | _ + 1, [] => []
  | fuel + 1, x :: xs =>
    if p <+: (x :: xs) then s ++ replacePyAux p s fuel (xs.drop (p.length - 1))
    else x :: replacePyAux p s fuel xs

/-- Python `content.replace(old, new)` for non-empty `old`. -/
def replacePy (p s l : Str) : Str := replacePyAux p s (l.length + 1) l

/-- Greedy split of a string on a non-empty pattern `p` (the pieces that
`replacePy` keeps between the replaced occurrences). -/
def splitPyAux (p : Str) : ℕ → Str → List Str
  | 0, l => [l]
  | _ + 1, [] => [[]]
  | fuel + 1, x :: xs =>
    if p <+: (x :: xs) then [] :: splitPyAux p fuel (xs.drop (p.length - 1))
    else
      match splitPyAux p fuel xs with
      | [] => [[x]]
      | h :: t => (x :: h) :: t

/-- Greedy split of a string on a non-empty pattern. -/
def splitPy (p l : Str) : List Str := splitPyAux p (l.length + 1) l

/-- Modelled from the spec: "replaces the first occurrence of the
placeholder token with `text`" — a replace-first operation, to be compared
with the code's replace-all. -/
def spec_replace_first (p s : Str) : Str → Str
  | [] => []
  | c :: rest =>
    if p <+: (c :: rest) then s ++ (c :: rest).drop p.length
    else c :: spec_replace_first p s rest

/-- A string containing neither `'!'` nor `'['`; such a string contains no
image-embed marker and cannot create one at a concatenation boundary. -/
def noMk (s : Str) : Prop := '!' ∉ s ∧ '[' ∉ s

instance (s : Str) : Decidable (noMk s) := by unfold noMk; infer_instance

end MoYu

namespace MoYu.FrameSimilarity

/-- Perceptual hash value: the bit array produced by the imagehash
primitive (`hash_size * hash_size` bits). -/
abbrev Hash := List Bool

/-- Hamming distance between two hashes (the imagehash `hash1 - hash2`). -/
def hammingDist (a b : Hash) : ℕ := (List.zipWith (fun x y => decide (x ≠ y)) a b).count true

/-- models.FrameInfo. -/
structure FrameInfo where
  frame_id : ℤ
  timestamp : ℚ
  timestamp_str : Str
  file_path : Str
  is_scene_change : Bool
deriving DecidableEq

instance : Inhabited FrameInfo := ⟨⟨0, 0, [], [], false⟩⟩

/-- frame_similarity.FrameGroup. -/
structure FrameGroup where
  representative_frame : FrameInfo
  start_time : ℚ
  end_time : ℚ
  frame_count : ℕ
  frame_ids : List ℤ
deriving DecidableEq

/-- frame_similarity.SimilarityResult. -/
structure SimilarityResult where
  original_count : ℕ
  merged_count : ℕ
  groups : List FrameGroup
  reduction_ratio : ℚ
deriving DecidableEq

/-- frame_similarity.FrameSimilarityDetector: configuration plus the
Hamming-distance cutoff computed in `__init__`. -/
structure FrameSimilarityDetector where
  similarity_threshold : ℚ
  hash_size : ℕ
  max_hamming_distance : ℤ
deriving DecidableEq

/-- FrameSimilarityDetector.__init__: `max_hamming_distance =
int(hash_size * hash_size * (1 - similarity_threshold))`. -/
def FrameSimilarityDetector.init (similarity_threshold : ℚ) (hash_size : ℕ) :
    FrameSimilarityDetector :=
  { similarity_threshold := similarity_threshold
    hash_size := hash_size
    max_hamming_distance :=
      pyInt ((hash_size * hash_size : ℕ) * (1 - similarity_threshold)) }

/-- FrameSimilarityDetector.are_similar: `False` if either hash is `None`,
otherwise compare the Hamming distance against the cutoff. -/
def are_similar (d : FrameSimilarityDetector) (h1 h2 : Option Hash) : Bool :=
  match h1, h2 with
  | some a, some b => decide ((hammingDist a b : ℤ) ≤ d.max_hamming_distance)
  | _, _ => false

/-- FrameSimilarityDetector._create_group: representative is the first
frame, time range spans first to last frame. -/
def create_group (frames : List FrameInfo) : FrameGroup :=
  { representative_frame := frames.headD default
    start_time := (frames.headD default).timestamp
    end_time := (frames.getLastD default).timestamp
    frame_count := frames.length
    frame_ids := frames.map (·.frame_id) }

/-- The grouping loop of `detect_and_merge`: `anchor` is the first frame of
the current group (with its hash), `members` the rest of the current group
in order, `rest` the frames still to scan.  A frame joins iff it is similar
to the anchor's hash; otherwise the current group is closed and the frame
anchors a new group. -/
def similarGo (d : FrameSimilarityDetector)
    (anchor : FrameInfo × Option Hash) (members : List (FrameInfo × Option Hash)) :
    List (FrameInfo × Option Hash) → List (List (FrameInfo × Option Hash))
  | [] => [anchor :: members]
  | x :: rs =>
    if are_similar d x.2 anchor.2 then similarGo d anchor (members ++ [x]) rs
    else (anchor :: members) :: similarGo d x [] rs

/-- FrameSimilarityDetector.detect_and_merge.  `imagehash_available` models
the module-level `IMAGEHASH_AVAILABLE` flag and `hashOf` the per-image
result of `compute_hash` (`none` when hashing fails for that image). -/
def detect_and_merge (imagehash_available : Bool) (hashOf : Str → Option Hash)
    (d : FrameSimilarityDetector) (frames : List FrameInfo) : SimilarityResult :=
  match frames with
  | [] =>
    { original_count := 0, merged_count := 0, groups := [], reduction_ratio := 0 }
  | f₀ :: rest =>
    if imagehash_available = false then
      { original_count := (f₀ :: rest).length
        merged_count := (f₀ :: rest).length
        groups := (f₀ :: rest).map (fun frame =>
          { representative_frame := frame
            start_time := frame.timestamp
            end_time := frame.timestamp
            frame_count := 1
            frame_ids := [frame.frame_id] })
        reduction_ratio := 0 }
    else
      let hashes := (f₀ :: rest).map (fun frame => hashOf frame.file_path)
      let chunks := similarGo d (f₀, hashes.headD none) []
        ((f₀ :: rest).zip hashes).tail
      let groups := chunks.map (fun c => create_group (c.map Prod.fst))
      let original_count := (f₀ :: rest).length
      let merged_count := groups.length
      { original_count := original_count
        merged_count := merged_count
        groups := groups
        reduction_ratio :=
          if 0 < original_count then 1 - (merged_count : ℚ) / (original_count : ℚ)
          else 0 }

end MoYu.FrameSimilarity

namespace MoYu.AIAnalyzer

open MoYu.FrameSimilarity

/-- ai_analyzer.TaskStatus. -/
inductive TaskStatus where
  | pending
  | running
  | completed
  | failed
deriving DecidableEq

/-- The string stored in `AnalysisTask.status` (`TaskStatus.*.value`). -/
def TaskStatus.value : TaskStatus → Str
  | .pending => "pending".data
  | .running => "running".data
  | .completed => "completed".data
  | .failed => "failed".data

/-- models.FrameAnalysis. -/
structure FrameAnalysis where
  frame_id : ℤ
  timestamp : ℚ
  description : Str
  objects : List Str
  text_content : List Str
  people_count : ℤ
  scene_type : Str
  key_points : List Str
  confidence : ℚ
deriving DecidableEq

/-- models.AnalysisTask. -/
structure AnalysisTask where
  task_id : Str
  frame_info : FrameInfo
  status : Str
  result : Option FrameAnalysis
  retry_count : ℕ
  error_message : Str
deriving DecidableEq

/-- AIAnalyzer.MAX_RETRY_COUNT. -/
def MAX_RETRY_COUNT : ℕ := 1

/-- AIAnalyzer.create_tasks: one task per frame, status pending, no result,
retry count 0.  `uuid_gen` models `uuid.uuid4()` — the i-th generated id. -/
def create_tasks (uuid_gen : ℕ → Str) (frames : List FrameInfo) : List AnalysisTask :=
  frames.enum.map (fun p =>
    { task_id := uuid_gen p.1
      frame_info := p.2
      status := TaskStatus.pending.value
      result := none
      retry_count := 0
      error_message := [] })

/-- Stable insertion of one analysis into a timestamp-sorted list. -/
def insort (a : FrameAnalysis) : List FrameAnalysis → List FrameAnalysis
  | [] => [a]
  | b :: bs => if a.timestamp ≤ b.timestamp then a :: b :: bs else b :: insort a bs

/-- AIAnalyzer.aggregate_results: `sorted(analyses, key=lambda x:
x.timestamp)` — a stable sort by timestamp, modelled by insertion sort
(extensionally equal to any stable sort by the same key). -/
def aggregate_results (analyses : List FrameAnalysis) : List FrameAnalysis :=
  analyses.foldr insort []

/-- Outcome of one attempt of `AIAnalyzer.analyze_frame` on a task, as seen
from `_execute_task_with_retry`: the frame image file may be missing (no
call to the vision primitive is made), or the primitive is invoked and
either yields a parsed `FrameAnalysis` or fails with an error message
(`_parse_analysis_result` itself never fails — it falls back to a raw-text
result — so a successful invocation always produces a result). -/
inductive AttemptOutcome where
  | success (r : FrameAnalysis)
  | fileMissing
  | failure (msg : Str)
deriving DecidableEq

/-- BilibiliAnalyzerError._format_message for context "AI分析": the string
form of an `AnalysisError` raised by `analyze_frame`. -/
def analysis_error_str (msg : Str) : Str := "[AI分析] ".data ++ msg

/-- AIAnalyzer.analyze_frame on a task, given the attempt's outcome:
returns the analysis or the raised `AnalysisError`'s string form. -/
def analyze_frame (out : AttemptOutcome) (t : AnalysisTask) : Except Str FrameAnalysis :=
  match out with
  | .success r => .ok r
  | .fileMissing =>
    .error (analysis_error_str ("帧图片不存在: ".data ++ t.frame_info.file_path))
  | .failure m => .error (analysis_error_str ("帧分析失败: ".data ++ m))

/-- Number of invocations of the external vision primitive made by one
attempt (zero when the missing-file check fails before the call). -/
def prim_calls : AttemptOutcome → ℕ
  | .fileMissing => 0
  | _ => 1

/-- The `while task.retry_count <= MAX_RETRY_COUNT` loop of
`AIAnalyzer._execute_task_with_retry`.  `oracle` gives the outcome of each
attempt (indexed from 0), `attempt` is the next attempt index, `calls` the
number of primitive invocations so far, `last_error` the last caught
`AnalysisError`.  Returns the finished task and the total number of
primitive invocations. -/
def retry_loop (oracle : ℕ → AttemptOutcome) (t : AnalysisTask)
    (attempt : ℕ) (calls : ℕ) (last_error : Option Str) : AnalysisTask × ℕ :=
  if t.retry_count ≤ MAX_RETRY_COUNT then
    match analyze_frame (oracle attempt) t with
    | .ok r =>
      ({t with result := some r, status := TaskStatus.completed.value},
        calls + prim_calls (oracle attempt))
    | .error e =>
      retry_loop oracle {t with retry_count := t.retry_count + 1}
        (attempt + 1) (calls + prim_calls (oracle attempt)) (some e)
  else
    ({t with
        status := TaskStatus.failed.value
        error_message := last_error.getD ("未知错误".data)}, calls)
termination_by MAX_RETRY_COUNT + 1 - t.retry_count
decreasing_by simp_all; omega

/-- AIAnalyzer._execute_task_with_retry: mark the task running (the
registry holds the same task object, so `update_task_status` is the same
mutation), then run the retry loop. -/
def execute_task_with_retry (oracle : ℕ → AttemptOutcome) (t : AnalysisTask) :
    AnalysisTask × ℕ :=
  retry_loop oracle {t with status := TaskStatus.running.value} 0 0 none

/-- The filter applied by `run_parallel` when collecting futures: keep the
result iff the task completed and carries a (non-`None`) result. -/
def completed_result (t : AnalysisTask) : Option FrameAnalysis :=
  if t.status = TaskStatus.completed.value then t.result else none

/-- AIAnalyzer.run_parallel.  Each task is executed (with retry) by an
independent worker; `completion_order` is the nondeterministic order in
which `as_completed` yields the finished futures; `oracle t` gives the
attempt outcomes for task `t`.  Completed results are collected in
completion order and then aggregated (sorted by timestamp). -/
def run_parallel (oracle : AnalysisTask → ℕ → AttemptOutcome)
    (completion_order : List AnalysisTask) : List FrameAnalysis :=
  aggregate_results
    (((completion_order.map (fun t => (execute_task_with_retry (oracle t) t).1))).filterMap
      completed_result)

/-- The list of finished tasks produced by executing every task of a batch
(execution of one task is independent of the others). -/
def executed_tasks (oracle : AnalysisTask → ℕ → AttemptOutcome)
    (tasks : List AnalysisTask) : List AnalysisTask :=
  tasks.map (fun t => (execute_task_with_retry (oracle t) t).1)

end MoYu.AIAnalyzer

namespace MoYu.IncrementalReport

open MoYu.FrameSimilarity
open MoYu.AIAnalyzer

/-- models.VideoMetadata. -/
structure VideoMetadata where
  bvid : Str
  title : Str
  author : Str
  author_id : Str
  duration : ℤ
  description : Str
  cover_url : Str
  view_count : ℤ
  like_count : ℤ
  publish_time : Str
deriving DecidableEq

/-- audio_transcriber.TranscriptSegment (the source field `end` is named
`endT` here because `end` is reserved). -/
structure TranscriptSegment where
  start : ℚ
  endT : ℚ
  text : Str
deriving DecidableEq

/-- audio_transcriber.TranscriptionResult (the fields the report generator
reads). -/
structure TranscriptionResult where
  success : Bool
  segments : List TranscriptSegment
deriving DecidableEq

/-- claude_cli_analyzer.ClaudeAnalysisResult. -/
structure ClaudeAnalysisResult where
  success : Bool
  frame_id : ℤ
  timestamp : ℚ
  raw_response : Str
  parsed_analysis : Option FrameAnalysis
  error_message : Option Str
deriving DecidableEq

/-- State of an IncrementalReportGenerator together with the report file it
writes (`file` is the current content of the report file on disk). -/
structure ReportState where
  file : Str
  initialized : Bool
  frame_count : ℕ
  transcript : Option TranscriptionResult
  images_subdir : Str
deriving DecidableEq

/-- IncrementalReportGenerator._format_duration (Python `//` and `%` on
ints are floor division and floor modulus). -/
def format_duration (seconds : ℤ) : Str :=
  let hours := seconds.fdiv 3600
  let minutes := (seconds.fmod 3600).fdiv 60
  let secs := seconds.fmod 60
  if 0 < hours then intChars hours ++ ":".data ++ pad2 minutes ++ ":".data ++ pad2 secs
  else intChars minutes ++ ":".data ++ pad2 secs

/-- IncrementalReportGenerator._format_time (Python float `//` and `%`
with a positive divisor: `x // d = ⌊x / d⌋`, `x % d = x - d * ⌊x / d⌋`,
and `int` of the nonnegative remainder is its floor). -/
def format_time (seconds : ℚ) : Str :=
  let hours : ℤ := ⌊seconds / 3600⌋
  let minutes : ℤ := ⌊(seconds - 3600 * (⌊seconds / 3600⌋ : ℚ)) / 60⌋
  let secs : ℤ := ⌊seconds - 60 * (⌊seconds / 60⌋ : ℚ)⌋
  pad2 hours ++ ":".data ++ pad2 minutes ++ ":".data ++ pad2 secs

/-- The summary placeholder token written by the header and patched by
`insert_summary`. -/
def summary_placeholder : Str := "*（分析完成后生成）*".data

/-- IncrementalReportGenerator._generate_header. -/
def generate_header (m : VideoMetadata) : Str :=
  let lines : List Str :=
    ["# 📺 ".data ++ m.title,
     [],
     "## 📋 视频信息".data,
     [],
     "| 属性 | 值 |".data,
     "|------|-----|".data,
     "| **BV号** | ".data ++ m.bvid ++ " |".data,
     "| **作者** | ".data ++ m.author ++ " |".data,
     "| **时长** | ".data ++ format_duration m.duration ++ " |".data,
     "| **播放量** | ".data ++ format_thousands m.view_count ++ " |".data,
     "| **点赞数** | ".data ++ format_thousands m.like_count ++ " |".data,
     "| **发布时间** | ".data ++ m.publish_time ++ " |".data,
     "| **链接** | https://www.bilibili.com/video/".data ++ m.bvid ++ " |".data,
     []]
  let lines := lines ++
    (if m.description ≠ [] then
      ["### 视频描述".data, [], "> ".data ++ m.description, []]
    else [])
  let lines := lines ++
    ["---".data, [],
     "## 📝 内容摘要".data, [],
     summary_placeholder, [],
     "---".data, [],
     "## 📹 详细分析".data, []]
  pyJoin ("\n".data) lines

/-- os.path.basename for POSIX paths: the part after the last slash. -/
def basename (p : Str) : Str :=
  p.foldl (fun acc c => if c = '/' then [] else acc ++ [c]) []

/-- IncrementalReportGenerator._get_relative_image_path. -/
def get_relative_image_path (images_subdir : Str) (absolute_path : Str) : Str :=
  images_subdir ++ "/".data ++ basename absolute_path

/-- IncrementalReportGenerator._get_transcript_for_time: the texts of all
segments whose interval overlaps `[start_time, end_time]`, joined by
spaces. -/
def get_transcript_for_time (tr : TranscriptionResult) (start_time end_time : ℚ) : Str :=
  pyJoin (" ".data)
    ((tr.segments.filter (fun seg =>
      decide (start_time ≤ seg.endT) && decide (seg.start ≤ end_time))).map (·.text))

/-- The failure text of a frame section: Python
`result.error_message or '未知错误'` (`None` and the empty string both fall
back to the default). -/
def err_msg_text (em : Option Str) : Str :=
  match em with
  | some e => if e ≠ [] then e else "未知错误".data
  | none => "未知错误".data

/-- IncrementalReportGenerator._generate_frame_section. -/
def generate_frame_section (images_subdir : Str) (transcript : Option TranscriptionResult)
    (frame : FrameInfo) (result : ClaudeAnalysisResult) (group : Option FrameGroup) : Str :=
  let headingLines : List Str :=
    match group with
    | some g =>
      if 1 < g.frame_count then
        ["### ".data ++ format_time g.start_time ++ " - ".data ++ format_time g.end_time,
         [],
         "*（合并 ".data ++ natChars g.frame_count ++ " 帧）*".data]
      else ["### ".data ++ frame.timestamp_str]
    | none => ["### ".data ++ frame.timestamp_str]
  let image_path := get_relative_image_path images_subdir frame.file_path
  let imageLines : List Str :=
    [[],
     "![".data ++ frame.timestamp_str ++ "](".data ++ image_path ++ ")".data,
     []]
  let analysisLines : List Str :=
    if result.success = true ∧ result.raw_response ≠ [] then
      [result.raw_response, []]
    else if h : result.success = true ∧ result.parsed_analysis.isSome then
      let analysis := result.parsed_analysis.get h.2
      (if analysis.description ≠ [] then
        ["**场景描述**: ".data ++ analysis.description, []] else []) ++
      (if analysis.text_content ≠ [] then
        ["**检测到的文字**:".data] ++
          analysis.text_content.map (fun t => "- ".data ++ t) ++ [[]]
      else []) ++
      (if analysis.key_points ≠ [] then
        ["**关键要点**:".data] ++
          analysis.key_points.map (fun point => "- ".data ++ point) ++ [[]]
      else [])
    else
      ["*分析失败: ".data ++ err_msg_text result.error_message ++ "*".data,
       []]
  let transcriptLines : List Str :=
    match transcript with
    | some tr =>
      if tr.success = true then
        let start_time := match group with | some g => g.start_time | none => frame.timestamp
        let end_time := match group with | some g => g.end_time | none => frame.timestamp + 1
        let transcript_text := get_transcript_for_time tr start_time end_time
        if transcript_text ≠ [] then
          ["> **🎤 音频内容** (".data ++ format_time start_time ++ " - ".data ++
             format_time end_time ++ "):".data,
           "> ".data,
           "> ".data ++ transcript_text,
           []]
        else []
      else []
    | none => []
  pyJoin ("\n".data)
    (headingLines ++ imageLines ++ analysisLines ++ transcriptLines ++ ["---".data, []])

/-- IncrementalReportGenerator.initialize: truncate the report file to the
freshly generated header, remember the transcript, set `_initialized`
(`_frame_count` is deliberately not reset, as in the source). -/
def initialize_report (st : ReportState) (m : VideoMetadata)
    (transcript : Option TranscriptionResult) : Bool × ReportState :=
  (true, { st with file := generate_header m, transcript := transcript, initialized := true })

/-- IncrementalReportGenerator.append_frame_analysis: refuse when not
initialized; otherwise append one frame section to the end of the file. -/
def append_frame_analysis (st : ReportState) (frame : FrameInfo)
    (analysis_result : ClaudeAnalysisResult) (group : Option FrameGroup) :
    Bool × ReportState :=
  if st.initialized = false then (false, st)
  else
    (true,
      { st with
        file := st.file ++
          generate_frame_section st.images_subdir st.transcript frame analysis_result group
        frame_count := st.frame_count + 1 })

/-- IncrementalReportGenerator.insert_summary: refuse when not initialized;
read the file, and only when the placeholder occurs, rewrite the file with
`content.replace(placeholder, summary)`. -/
def insert_summary (st : ReportState) (summary : Str) : Bool × ReportState :=
  if st.initialized = false then (false, st)
  else if summary_placeholder <:+: st.file then
    (true, { st with file := replacePy summary_placeholder summary st.file })
  else (false, st)

/-- IncrementalReportGenerator._generate_footer (`now` models
`datetime.now().strftime(...)`). -/
def generate_footer (frame_count : ℕ) (now : Str) : Str :=
  "\n---\n\n## 📊 分析统计\n\n- 分析帧数: ".data ++ natChars frame_count ++
    "\n- 生成时间: ".data ++ now ++
    "\n\n---\n\n*由 Bilibili Video Analyzer 自动生成*\n\n*使用 Claude Code 进行 AI 分析*\n".data

/-- IncrementalReportGenerator.finalize: refuse when not initialized;
otherwise append the footer. -/
def finalize (st : ReportState) (now : Str) : Bool × ReportState :=
  if st.initialized = false then (false, st)
  else (true, { st with file := st.file ++ generate_footer st.frame_count now })

/-- One item of a sequence of append calls. -/
structure AppendItem where
  frame : FrameInfo
  result : ClaudeAnalysisResult
  group : Option FrameGroup
deriving DecidableEq

/-- Run a sequence of `append_frame_analysis` calls, recording whether all
of them succeeded. -/
def append_run (st : ReportState) (items : List AppendItem) : ReportState × Bool :=
  items.foldl
    (fun acc it =>
      let r := append_frame_analysis acc.1 it.frame it.result it.group
      (r.2, acc.2 && r.1))
    (st, true)

/-- The frame sections produced by a sequence of append calls (the
writer's `images_subdir` and transcript are fixed for the writer's
lifetime). -/
def sections_of (images_subdir : Str) (transcript : Option TranscriptionResult)
    (items : List AppendItem) : List Str :=
  items.map (fun it =>
    generate_frame_section images_subdir transcript it.frame it.result it.group)

/-- Marker-cleanliness of the variable inputs of one append call: none of
the interpolated strings contains `'!'` or `'['`, so the only `![` marker
in the generated section is its image embed. -/
def cleanItem (it : AppendItem) : Prop :=
  noMk it.frame.timestamp_str ∧ noMk it.frame.file_path ∧
    noMk it.result.raw_response ∧
    (∀ a ∈ it.result.parsed_analysis,
      noMk a.description ∧ (∀ s ∈ a.text_content, noMk s) ∧
        ∀ s ∈ a.key_points, noMk s) ∧
    ∀ e ∈ it.result.error_message, noMk e

instance (it : AppendItem) : Decidable (cleanItem it) := by
  unfold cleanItem; infer_instance

/-- Marker-cleanliness of a stored transcript. -/
def cleanTranscript (transcript : Option TranscriptionResult) : Prop :=
  ∀ tr ∈ transcript, ∀ seg ∈ tr.segments, noMk seg.text

instance (transcript : Option TranscriptionResult) :
    Decidable (cleanTranscript transcript) := by
  unfold cleanTranscript; infer_instance

/-- Marker-cleanliness of the metadata interpolated into the header. -/
def cleanVideoMetadata (m : VideoMetadata) : Prop :=
  noMk m.bvid ∧ noMk m.title ∧ noMk m.author ∧ noMk m.description ∧
    noMk m.publish_time

instance (m : VideoMetadata) : Decidable (cleanVideoMetadata m) := by
  unfold cleanVideoMetadata; infer_instance

end MoYu.IncrementalReport

namespace MoYu.Fixtures

open MoYu.FrameSimilarity
open MoYu.AIAnalyzer
open MoYu.IncrementalReport

/-- A concrete frame used in concrete instantiations. -/
def mkFrame (i : ℤ) (ts : ℚ) (path : Str) : FrameInfo :=
  { frame_id := i, timestamp := ts, timestamp_str := "00:00:00".data,
    file_path := path, is_scene_change := false }

/-- Concrete 256-bit hash with ones at the listed positions of the first
eight bits. -/
def mkHash (bits : List Bool) : Hash := bits ++ List.replicate 248 false

/-- Hash of frame 0 of the threshold-monotonicity counterexample. -/
def c4_hash0 : Hash := mkHash [true, true, true, true, false, false, false, false]

/-- Hash of frame 1 of the threshold-monotonicity counterexample. -/
def c4_hash1 : Hash := mkHash [false, false, false, false, false, false, false, false]

/-- Hash of frame 2 of the threshold-monotonicity counterexample. -/
def c4_hash2 : Hash := mkHash [true, false, false, false, false, true, true, false]

/-- Hash of frame 3 of the threshold-monotonicity counterexample. -/
def c4_hash3 : Hash := mkHash [false, false, false, true, true, false, false, false]

/-- The four frames of the threshold-monotonicity counterexample. -/
def c4_frames : List FrameInfo :=
  [mkFrame 0 0 ("f0".data), mkFrame 1 1 ("f1".data),
   mkFrame 2 2 ("f2".data), mkFrame 3 3 ("f3".data)]

/-- Hashing oracle of the threshold-monotonicity counterexample. -/
def c4_hashOf : Str → Option Hash := fun p =>
  if p = "f0".data then some c4_hash0
  else if p = "f1".data then some c4_hash1
  else if p = "f2".data then some c4_hash2
  else if p = "f3".data then some c4_hash3
  else none

/-- A concrete analysis result. -/
def someAnalysis : FrameAnalysis :=
  { frame_id := 0, timestamp := 0, description := "d".data, objects := [],
    text_content := [], people_count := 0, scene_type := [], key_points := [],
    confidence := 1 }

/-- A concrete analysis result with timestamp 5. -/
def someAnalysis5 : FrameAnalysis := { someAnalysis with timestamp := 5 }

/-- Attempt oracle that fails on the first attempt and succeeds on the
second. -/
def failThenSucceed : ℕ → AttemptOutcome :=
  fun n => if n = 0 then .failure ("boom".data) else .success someAnalysis

/-- A fresh concrete analysis task. -/
def freshTask (i : ℤ) (ts : ℚ) : AnalysisTask :=
  { task_id := natChars i.toNat, frame_info := mkFrame i ts ("f".data),
    status := TaskStatus.pending.value, result := none, retry_count := 0,
    error_message := [] }

/-- Per-task attempt oracle used by the run-parallel witness: the task with
id "0" always fails, every other task succeeds with a timestamp-5 result
first and a timestamp-0 result for later tasks. -/
def c2_oracle : AnalysisTask → ℕ → AttemptOutcome := fun t _ =>
  if t.task_id = natChars 0 then .failure ("down".data)
  else if t.task_id = natChars 1 then .success someAnalysis5
  else .success someAnalysis

/-- An uninitialized report-writer state. -/
def uninitState : ReportState :=
  { file := [], initialized := false, frame_count := 0, transcript := none,
    images_subdir := "images".data }

/-- An initialized report-writer state whose file lacks the placeholder. -/
def noPlaceholderState : ReportState :=
  { file := "abc".data, initialized := true, frame_count := 0, transcript := none,
    images_subdir := "images".data }

/-- Concrete metadata whose description embeds the summary placeholder, so
that the freshly initialized report file contains the placeholder twice. -/
def dupMeta : VideoMetadata :=
  { bvid := "BV1".data, title := "t".data, author := "a".data,
    author_id := "1".data, duration := 65, description := summary_placeholder,
    cover_url := [], view_count := 1234, like_count := 7,
    publish_time := "2024".data }

/-- Marker-clean concrete metadata. -/
def cleanMeta' : VideoMetadata :=
  { bvid := "BV1".data, title := "t".data, author := "a".data,
    author_id := "1".data, duration := 65, description := [],
    cover_url := [], view_count := 1234, like_count := 7,
    publish_time := "2024".data }

/-- Marker-clean concrete Claude result. -/
def cleanResult' : ClaudeAnalysisResult :=
  { success := true, frame_id := 0, timestamp := 0, raw_response := "ok".data,
    parsed_analysis := none, error_message := none }

/-- Two concrete frames for the task-creation witness. -/
def c5_frames : List FrameInfo := [mkFrame 0 0 ("f0".data), mkFrame 1 1 ("f1".data)]

end MoYu.Fixtures

namespace MoYu

open MoYu.FrameSimilarity
open MoYu.AIAnalyzer
open MoYu.IncrementalReport
open MoYu.Fixtures

/-- C9: when the perceptual-hashing primitive is unavailable,
`detect_and_merge` is the identity grouping: one singleton group per input
frame, with that frame as representative, `frame_count` 1, start and end
times equal to the frame's timestamp; the output group count equals the
input frame count and `reduction_ratio` is 0.  This is an ordinary
(degraded-mode) return value, not an error. -/
theorem claim_C9_degraded_identity (hashOf : Str → Option Hash)
    (d : FrameSimilarityDetector) (frames : List FrameInfo) :
    detect_and_merge false hashOf d frames =
      { original_count := frames.length
        merged_count := frames.length
        groups := frames.map (fun frame =>
          { representative_frame := frame
            start_time := frame.timestamp
            end_time := frame.timestamp
            frame_count := 1
            frame_ids := [frame.frame_id] })
        reduction_ratio := 0 } := by
  cases frames with
  | nil => rfl
  | cons f rest => rfl

/-- C8: calling `append_frame_analysis` or `finalize` before the report
writer has been initialized signals a "not initialized" failure to the
caller and leaves the report file untouched. -/
theorem claim_C8_misuse_before_init (st : ReportState) (frame : FrameInfo)
    (result : ClaudeAnalysisResult) (group : Option FrameGroup) (now : Str)
    (h : st.initialized = false) :
    append_frame_analysis st frame result group = (false, st) ∧
      finalize st now = (false, st) := by
  constructor
  · simp [append_frame_analysis, h]
  · simp [finalize, h]

/-- Witness for C8 at a concrete uninitialized state. -/
theorem claim_C8_misuse_before_init_witness :
    append_frame_analysis uninitState (mkFrame 0 0 ("f".data)) cleanResult' none =
        (false, uninitState) ∧
      finalize uninitState [] = (false, uninitState) :=
  claim_C8_misuse_before_init uninitState (mkFrame 0 0 ("f".data)) cleanResult' none [] rfl

/-- C10: on an initialized report writer whose file does not contain the
summary placeholder, `insert_summary` returns failure and leaves the file
byte-for-byte unchanged. -/
theorem claim_C10_no_placeholder_unchanged (st : ReportState) (summary : Str)
    (hinit : st.initialized = true) (hnot : ¬ summary_placeholder <:+: st.file) :
    insert_summary st summary = (false, st) := by
  simp [insert_summary, hinit, hnot]

/-- Witness for C10 at a concrete placeholder-free state. -/
theorem claim_C10_no_placeholder_unchanged_witness :
    insert_summary noPlaceholderState ("sum".data) = (false, noPlaceholderState) :=
  claim_C10_no_placeholder_unchanged noPlaceholderState ("sum".data) rfl (by decide)

theorem create_tasks_map_task_id (uuid_gen : ℕ → Str) (frames : List FrameInfo) :
    (create_tasks uuid_gen frames).map (·.task_id) =
      (List.range frames.length).map uuid_gen := by
  unfold create_tasks
  rw [List.map_map]
  rw [show ((fun t : AnalysisTask => t.task_id) ∘ fun p : ℕ × FrameInfo =>
      ({ task_id := uuid_gen p.1, frame_info := p.2,
         status := TaskStatus.pending.value, result := none, retry_count := 0,
         error_message := [] } : AnalysisTask)) = uuid_gen ∘ Prod.fst from rfl]
  rw [← List.map_map, List.enum_map_fst]

theorem create_tasks_map_frame_info (uuid_gen : ℕ → Str) (frames : List FrameInfo) :
    (create_tasks uuid_gen frames).map (fun t => t.frame_info) = frames := by
  unfold create_tasks
  rw [List.map_map]
  rw [show ((fun t : AnalysisTask => t.frame_info) ∘ fun p : ℕ × FrameInfo =>
      ({ task_id := uuid_gen p.1, frame_info := p.2,
         status := TaskStatus.pending.value, result := none, retry_count := 0,
         error_message := [] } : AnalysisTask)) = Prod.snd from rfl]
  rw [List.enum_map_snd]

/-- C5: `create_tasks` on N frames returns exactly N tasks; the task ids
are the N freshly generated ids (so pairwise distinct whenever the
generator does not repeat itself); the tasks reference exactly the input
frames in order (hence the multiset of frame ids is preserved — nothing is
dropped or duplicated); and every new task is Pending with no result and
retry count 0. -/
theorem claim_C5_create_tasks_bijection (uuid_gen : ℕ → Str) (frames : List FrameInfo)
    (hgen : ((List.range frames.length).map uuid_gen).Nodup) :
    (create_tasks uuid_gen frames).length = frames.length ∧
    ((create_tasks uuid_gen frames).map (·.task_id)).Nodup ∧
    (create_tasks uuid_gen frames).map (fun t => t.frame_info) = frames ∧
    (create_tasks uuid_gen frames).map (fun t => t.frame_info.frame_id) =
      frames.map (·.frame_id) ∧
    ∀ t ∈ create_tasks uuid_gen frames,
      t.status = TaskStatus.pending.value ∧ t.result = none ∧
      t.retry_count = 0 ∧ t.error_message = [] := by
  refine ⟨?_, ?_, create_tasks_map_frame_info uuid_gen frames, ?_, ?_⟩
  · simp [create_tasks]
  · rw [create_tasks_map_task_id]; exact hgen
  · have h := create_tasks_map_frame_info uuid_gen frames
    have h2 := congrArg (List.map (fun f : FrameInfo => f.frame_id)) h
    rw [List.map_map] at h2
    exact h2
  · intro t ht
    unfold create_tasks at ht
    rw [List.mem_map] at ht
    obtain ⟨p, -, rfl⟩ := ht
    exact ⟨rfl, rfl, rfl, rfl⟩

/-- Witness for C5 at two concrete frames with the decimal generator. -/
theorem claim_C5_create_tasks_bijection_witness :
    (create_tasks natChars c5_frames).length = c5_frames.length ∧
      ((create_tasks natChars c5_frames).map (·.task_id)).Nodup := by
  have h := claim_C5_create_tasks_bijection natChars c5_frames (by decide)
  exact ⟨h.1, h.2.1⟩

theorem analysis_error_str_ne_nil (msg : Str) : analysis_error_str msg ≠ [] := by
  simp [analysis_error_str]

/-- C1: a task entering the retrying executor with retry count 0 invokes
the external analysis primitive at most twice; if the first attempt
succeeds the task completes with the result stored, retry count 0 and
exactly one primitive invocation; if only the second attempt succeeds it
completes with the result stored and retry count 1; if both attempts fail
the task ends Failed with retry count 2 and a non-empty error message. -/
theorem claim_C1_retry_policy (oracle : ℕ → AttemptOutcome) (t : AnalysisTask)
    (h0 : t.retry_count = 0) :
    (execute_task_with_retry oracle t).2 ≤ 2 ∧
    (∀ fa, oracle 0 = .success fa →
      (execute_task_with_retry oracle t).1.status = TaskStatus.completed.value ∧
      (execute_task_with_retry oracle t).1.result = some fa ∧
      (execute_task_with_retry oracle t).1.retry_count = 0 ∧
      (execute_task_with_retry oracle t).2 = 1) ∧
    (∀ fa, (∀ x, oracle 0 ≠ .success x) → oracle 1 = .success fa →
      (execute_task_with_retry oracle t).1.status = TaskStatus.completed.value ∧
      (execute_task_with_retry oracle t).1.result = some fa ∧
      (execute_task_with_retry oracle t).1.retry_count = 1) ∧
    ((∀ x, oracle 0 ≠ .success x) → (∀ x, oracle 1 ≠ .success x) →
      (execute_task_with_retry oracle t).1.status = TaskStatus.failed.value ∧
      (execute_task_with_retry oracle t).1.retry_count = 2 ∧
      (execute_task_with_retry oracle t).1.error_message ≠ []) := by
  refine ⟨?_, fun fa hfa => ?_, fun fa hno hfa => ?_, fun hno0 hno1 => ?_⟩
  · cases o0 : oracle 0 with
    | success fa =>
      simp [execute_task_with_retry, retry_loop, h0, o0, analyze_frame, prim_calls,
        MAX_RETRY_COUNT]
    | fileMissing =>
      cases o1 : oracle 1 <;>
        simp [execute_task_with_retry, retry_loop, h0, o0, o1, analyze_frame, prim_calls,
          MAX_RETRY_COUNT]
    | failure m =>
      cases o1 : oracle 1 <;>
        simp [execute_task_with_retry, retry_loop, h0, o0, o1, analyze_frame, prim_calls,
          MAX_RETRY_COUNT]
  · simp [execute_task_with_retry, retry_loop, h0, hfa, analyze_frame, prim_calls,
      MAX_RETRY_COUNT]
  · cases o0 : oracle 0 with
    | success fa₀ => exact absurd o0 (hno fa₀)
    | fileMissing =>
      simp [execute_task_with_retry, retry_loop, h0, o0, hfa, analyze_frame, prim_calls,
        MAX_RETRY_COUNT]
    | failure m =>
      simp [execute_task_with_retry, retry_loop, h0, o0, hfa, analyze_frame, prim_calls,
        MAX_RETRY_COUNT]
  · cases o0 : oracle 0 with
    | success fa₀ => exact absurd o0 (hno0 fa₀)
    | fileMissing =>
      cases o1 : oracle 1 with
      | success fa₁ => exact absurd o1 (hno1 fa₁)
      | fileMissing =>
        simp [execute_task_with_retry, retry_loop, h0, o0, o1, analyze_frame, prim_calls,
          MAX_RETRY_COUNT, analysis_error_str_ne_nil]
      | failure m₁ =>
        simp [execute_task_with_retry, retry_loop, h0, o0, o1, analyze_frame, prim_calls,
          MAX_RETRY_COUNT, analysis_error_str_ne_nil]
    | failure m =>
      cases o1 : oracle 1 with
      | success fa₁ => exact absurd o1 (hno1 fa₁)
      | fileMissing =>
        simp [execute_task_with_retry, retry_loop, h0, o0, o1, analyze_frame, prim_calls,
          MAX_RETRY_COUNT, analysis_error_str_ne_nil]
      | failure m₁ =>
        simp [execute_task_with_retry, retry_loop, h0, o0, o1, analyze_frame, prim_calls,
          MAX_RETRY_COUNT, analysis_error_str_ne_nil]

theorem retry_loop_terminal (oracle : ℕ → AttemptOutcome) (n : ℕ) :
    ∀ (t : AnalysisTask) (attempt calls : ℕ) (last_error : Option Str),
      MAX_RETRY_COUNT + 1 - t.retry_count ≤ n →
      ((retry_loop oracle t attempt calls last_error).1.status =
          TaskStatus.completed.value ∨
        (retry_loop oracle t attempt calls last_error).1.status =
          TaskStatus.failed.value) := by
  induction n with
  | zero =>
    intro t attempt calls last_error h
    have hrc : ¬ t.retry_count ≤ MAX_RETRY_COUNT := by omega
    right
    rw [retry_loop, if_neg hrc]
  | succ n ih =>
    intro t attempt calls last_error h
    by_cases hrc : t.retry_count ≤ MAX_RETRY_COUNT
    · rw [retry_loop, if_pos hrc]
      cases analyze_frame (oracle attempt) t with
      | ok r => left; rfl
      | error e =>
        refine ih _ _ _ _ ?_
        have : ({t with retry_count := t.retry_count + 1} : AnalysisTask).retry_count =
            t.retry_count + 1 := rfl
        rw [this]
        omega
    · right
      rw [retry_loop, if_neg hrc]

theorem executed_tasks_terminal (oracle : AnalysisTask → ℕ → AttemptOutcome)
    (tasks : List AnalysisTask) :
    ∀ t' ∈ executed_tasks oracle tasks,
      t'.status = TaskStatus.completed.value ∨ t'.status = TaskStatus.failed.value := by
  intro t' ht'
  unfold executed_tasks at ht'
  rw [List.mem_map] at ht'
  obtain ⟨t, -, rfl⟩ := ht'
  exact retry_loop_terminal (oracle t) (MAX_RETRY_COUNT + 1) _ 0 0 none (by omega)

theorem insort_perm (a : FrameAnalysis) (l : List FrameAnalysis) :
    (insort a l).Perm (a :: l) := by
  induction l with
  | nil => exact List.Perm.refl _
  | cons b bs ih =>
    unfold insort
    split
    · exact List.Perm.refl _
    · exact (List.Perm.cons b ih).trans (List.Perm.swap a b bs)

theorem aggregate_results_perm (analyses : List FrameAnalysis) :
    (aggregate_results analyses).Perm analyses := by
  induction analyses with
  | nil => exact List.Perm.refl _
  | cons a rest ih =>
    exact (insort_perm a (aggregate_results rest)).trans (List.Perm.cons a ih)

theorem insort_pairwise (a : FrameAnalysis) (l : List FrameAnalysis)
    (h : l.Pairwise (fun x y => x.timestamp ≤ y.timestamp)) :
    (insort a l).Pairwise (fun x y => x.timestamp ≤ y.timestamp) := by
  induction l with
  | nil => simp [insort]
  | cons b bs ih =>
    rw [List.pairwise_cons] at h
    obtain ⟨hb, hbs⟩ := h
    unfold insort
    split
    · rename_i hab
      refine List.Pairwise.cons ?_ (List.Pairwise.cons hb hbs)
      intro x hx
      rcases List.mem_cons.mp hx with rfl | hx
      · exact hab
      · exact le_trans hab (hb x hx)
    · rename_i hab
      refine List.Pairwise.cons ?_ (ih hbs)
      intro x hx
      rcases List.mem_cons.mp ((insort_perm a bs).mem_iff.mp hx) with rfl | hx
      · exact le_of_not_le hab
      · exact hb x hx

theorem aggregate_results_pairwise (analyses : List FrameAnalysis) :
    (aggregate_results analyses).Pairwise (fun x y => x.timestamp ≤ y.timestamp) := by
  induction analyses with
  | nil => simp [aggregate_results]
  | cons a rest ih => exact insort_pairwise a (aggregate_results rest) ih

/-- C2: `run_parallel` executes every task to a terminal state, returns
exactly the results of the Completed tasks (up to order), and its output
timestamps are non-decreasing regardless of the (nondeterministic)
completion order; and `aggregate_results` on any list of results returns a
permutation of that list with non-decreasing timestamps. -/
theorem claim_C2_run_parallel_aggregation (oracle : AnalysisTask → ℕ → AttemptOutcome)
    (tasks completion_order : List AnalysisTask) (hperm : completion_order.Perm tasks) :
    (run_parallel oracle completion_order).Pairwise
        (fun a b => a.timestamp ≤ b.timestamp) ∧
      (run_parallel oracle completion_order).Perm
        ((executed_tasks oracle tasks).filterMap completed_result) ∧
      (∀ t' ∈ executed_tasks oracle tasks,
        t'.status = TaskStatus.completed.value ∨
          t'.status = TaskStatus.failed.value) ∧
      ∀ analyses : List FrameAnalysis,
        (aggregate_results analyses).Perm analyses ∧
          (aggregate_results analyses).Pairwise
            (fun a b => a.timestamp ≤ b.timestamp) := by
  refine ⟨aggregate_results_pairwise _, ?_, executed_tasks_terminal oracle tasks,
    fun analyses => ⟨aggregate_results_perm analyses, aggregate_results_pairwise analyses⟩⟩
  unfold run_parallel executed_tasks
  exact (aggregate_results_perm _).trans
    (List.Perm.filterMap completed_result
      (hperm.map (fun t => (execute_task_with_retry (oracle t) t).1)))

/-- Witness for C2 at a concrete two-task batch delivered in swapped
completion order. -/
theorem claim_C2_run_parallel_aggregation_witness :
    (run_parallel c2_oracle [freshTask 1 5, freshTask 0 0]).Pairwise
        (fun a b => a.timestamp ≤ b.timestamp) ∧
      (run_parallel c2_oracle [freshTask 1 5, freshTask 0 0]).Perm
        ((executed_tasks c2_oracle [freshTask 0 0, freshTask 1 5]).filterMap
          completed_result) := by
  have h := claim_C2_run_parallel_aggregation c2_oracle
    [freshTask 0 0, freshTask 1 5] [freshTask 1 5, freshTask 0 0]
    (List.Perm.swap (freshTask 0 0) (freshTask 1 5) [])
  exact ⟨h.1, h.2.1⟩

theorem zip_map_self {α β : Type} (l : List α) (g : α → β) :
    l.zip (l.map g) = l.map (fun x => (x, g x)) := by
  induction l with
  | nil => rfl
  | cons x xs ih => simp [ih]

theorem similarGo_join (d : FrameSimilarityDetector) :
    ∀ (rest : List (FrameInfo × Option Hash)) (anchor : FrameInfo × Option Hash)
      (members : List (FrameInfo × Option Hash)),
      (similarGo d anchor members rest).flatten = (anchor :: members) ++ rest := by
  intro rest
  induction rest with
  | nil => intro anchor members; simp [similarGo]
  | cons x rs ih =>
    intro anchor members
    unfold similarGo
    split
    · rw [ih]; simp
    · simp only [List.flatten_cons, ih]; simp

theorem similarGo_ne_nil (d : FrameSimilarityDetector) :
    ∀ (rest : List (FrameInfo × Option Hash)) (anchor : FrameInfo × Option Hash)
      (members : List (FrameInfo × Option Hash)),
      ∀ c ∈ similarGo d anchor members rest, c ≠ [] := by
  intro rest
  induction rest with
  | nil =>
    intro anchor members c hc
    simp [similarGo] at hc
    simp [hc]
  | cons x rs ih =>
    intro anchor members c hc
    unfold similarGo at hc
    split at hc
    · exact ih _ _ c hc
    · rcases List.mem_cons.mp hc with rfl | hc
      · simp
      · exact ih _ _ c hc

theorem similarGo_head (d : FrameSimilarityDetector) :
    ∀ (rest : List (FrameInfo × Option Hash)) (anchor : FrameInfo × Option Hash)
      (members : List (FrameInfo × Option Hash)),
      ∃ tl, (similarGo d anchor members rest).head? = some (anchor :: tl) := by
  intro rest
  induction rest with
  | nil => intro anchor members; exact ⟨members, rfl⟩
  | cons x rs ih =>
    intro anchor members
    unfold similarGo
    split
    · exact ih anchor (members ++ [x])
    · exact ⟨members, rfl⟩

theorem similarGo_members (d : FrameSimilarityDetector) :
    ∀ (rest : List (FrameInfo × Option Hash)) (anchor : FrameInfo × Option Hash)
      (members : List (FrameInfo × Option Hash)),
      (∀ x ∈ members, are_similar d x.2 anchor.2 = true) →
      ∀ c ∈ similarGo d anchor members rest,
        ∃ anc tl, c = anc :: tl ∧ ∀ x ∈ tl, are_similar d x.2 anc.2 = true := by
  intro rest
  induction rest with
  | nil =>
    intro anchor members hinv c hc
    simp [similarGo] at hc
    exact ⟨anchor, members, hc, hinv⟩
  | cons x rs ih =>
    intro anchor members hinv c hc
    unfold similarGo at hc
    split at hc
    · rename_i hsim
      refine ih _ _ ?_ c hc
      intro y hy
      rcases List.mem_append.mp hy with hy | hy
      · exact hinv y hy
      · rw [List.mem_singleton.mp hy]; exact hsim
    · rcases List.mem_cons.mp hc with rfl | hc
      · exact ⟨anchor, members, rfl, hinv⟩
      · exact ih _ _ (by intro y hy; simp at hy) c hc

theorem similarGo_chain (d : FrameSimilarityDetector) :
    ∀ (rest : List (FrameInfo × Option Hash)) (anchor : FrameInfo × Option Hash)
      (members : List (FrameInfo × Option Hash)),
      List.Chain' (fun c c' => ∀ pa ∈ c.head?, ∀ pb ∈ c'.head?,
        are_similar d pb.2 pa.2 = false) (similarGo d anchor members rest) := by
  intro rest
  induction rest with
  | nil => intro anchor members; exact List.chain'_singleton _
  | cons x rs ih =>
    intro anchor members
    unfold similarGo
    split
    · exact ih anchor (members ++ [x])
    · rename_i hsim
      refine List.chain'_cons'.mpr ⟨?_, ih x []⟩
      intro b hb
      obtain ⟨tl, htl⟩ := similarGo_head d rs x []
      rw [htl] at hb
      rw [Option.mem_some_iff] at hb
      subst hb
      intro pa hpa pb hpb
      simp at hpa hpb
      subst hpa
      subst hpb
      exact Bool.not_eq_true _ ▸ (by simpa using hsim)

theorem similarGo_mem_pairs (d : FrameSimilarityDetector)
    (rest : List (FrameInfo × Option Hash)) (anchor : FrameInfo × Option Hash)
    (members : List (FrameInfo × Option Hash)) :
    ∀ c ∈ similarGo d anchor members rest, ∀ p ∈ c, p ∈ (anchor :: members) ++ rest := by
  intro c hc p hp
  have : p ∈ (similarGo d anchor members rest).flatten := List.mem_flatten.mpr ⟨c, hc, hp⟩
  rwa [similarGo_join] at this

theorem detect_groups_eq (hashOf : Str → Option Hash) (d : FrameSimilarityDetector)
    (f : FrameInfo) (rest : List FrameInfo) :
    (detect_and_merge true hashOf d (f :: rest)).groups =
      (similarGo d (f, hashOf f.file_path) []
        ((rest.map (fun fr => (fr, hashOf fr.file_path))))).map
        (fun c => create_group (c.map Prod.fst)) := by
  have hz : ((f :: rest).zip ((f :: rest).map (fun frame => hashOf frame.file_path))).tail
      = rest.map (fun fr => (fr, hashOf fr.file_path)) := by
    rw [zip_map_self]; rfl
  simp only [detect_and_merge]
  rw [hz, if_neg (by decide)]
  rfl

theorem flatten_map_map {α β : Type} (g : α → β) :
    ∀ (L : List (List α)), (L.map (List.map g)).flatten = L.flatten.map g := by
  intro L
  induction L with
  | nil => rfl
  | cons c cs ih => simp only [List.map_cons, List.flatten_cons, List.map_append, ih]

theorem chain'_imp_of_mem {α : Type} {B S : α → α → Prop} :
    ∀ (L : List α), List.Chain' B L → (∀ a ∈ L, ∀ b ∈ L, B a b → S a b) →
      List.Chain' S L := by
  intro L
  induction L with
  | nil => intro _ _; exact List.chain'_nil
  | cons a l ih =>
    intro h himp
    rw [List.chain'_cons'] at h ⊢
    obtain ⟨h1, h2⟩ := h
    refine ⟨?_, ih h2 (fun x hx y hy => himp x (by simp [hx]) y (by simp [hy]))⟩
    intro b hb
    exact himp a (by simp) b (by simp [List.mem_of_mem_head? hb]) (h1 b hb)

/-- C3: with hashing available, grouping on a non-empty timestamp-sorted
frame list is a single greedy left-to-right pass: the groups are
contiguous, cover the input in order, are never reopened; a frame joins
the current group iff the Hamming distance of its hash to the hash of the
group's anchor (the group's first frame) is at most
`⌊hash_bits * (1 - threshold)⌋`; and the first frame failing the test
anchors the next group (consecutive anchors fail the test against the
previous anchor). -/
theorem claim_C3_greedy_anchor_grouping (t : ℚ) (hs : ℕ) (hashOf : Str → Option Hash)
    (frames : List FrameInfo) (hne : frames ≠ [])
    (hsorted : frames.Pairwise (fun a b => a.timestamp ≤ b.timestamp))
    (ht0 : 0 ≤ t) (ht1 : t ≤ 1)
    (hhash : ∀ f ∈ frames, (hashOf f.file_path).isSome = true) :
    (FrameSimilarityDetector.init t hs).max_hamming_distance =
        ⌊((hs * hs : ℕ) : ℚ) * (1 - t)⌋ ∧
      ∃ chunks : List (List FrameInfo),
        (detect_and_merge true hashOf (FrameSimilarityDetector.init t hs) frames).groups =
            chunks.map create_group ∧
          chunks.flatten = frames ∧
          (∀ c ∈ chunks, c ≠ []) ∧
          (∀ c ∈ chunks, ∀ a ∈ c.head?, ∀ x ∈ c.tail, ∀ va vx,
            hashOf a.file_path = some va → hashOf x.file_path = some vx →
            (hammingDist vx va : ℤ) ≤ ⌊((hs * hs : ℕ) : ℚ) * (1 - t)⌋) ∧
          List.Chain' (fun c c' => ∀ a ∈ c.head?, ∀ b ∈ c'.head?, ∀ va vb,
            hashOf a.file_path = some va → hashOf b.file_path = some vb →
            ¬ ((hammingDist vb va : ℤ) ≤ ⌊((hs * hs : ℕ) : ℚ) * (1 - t)⌋)) chunks := by
  have hD : (FrameSimilarityDetector.init t hs).max_hamming_distance =
      ⌊((hs * hs : ℕ) : ℚ) * (1 - t)⌋ := by
    unfold FrameSimilarityDetector.init pyInt
    rw [if_pos (mul_nonneg (Nat.cast_nonneg _) (by linarith))]
  cases frames with
  | nil => exact absurd rfl hne
  | cons f rest =>
    refine ⟨hD, ?_⟩
    have hlink : ∀ c ∈ similarGo (FrameSimilarityDetector.init t hs)
        (f, hashOf f.file_path) [] (rest.map (fun fr => (fr, hashOf fr.file_path))),
        ∀ p ∈ c, p.2 = hashOf p.1.file_path := by
      intro c hc p hp
      have hmem := similarGo_mem_pairs _ _ _ _ c hc p hp
      rcases List.mem_append.mp hmem with hmem | hmem
      · rcases List.mem_cons.mp hmem with rfl | hmem
        · rfl
        · simp at hmem
      · rw [List.mem_map] at hmem
        obtain ⟨fr, -, rfl⟩ := hmem
        rfl
    refine ⟨(similarGo (FrameSimilarityDetector.init t hs) (f, hashOf f.file_path) []
      (rest.map (fun fr => (fr, hashOf fr.file_path)))).map (List.map Prod.fst),
      ?_, ?_, ?_, ?_, ?_⟩
    · rw [detect_groups_eq, List.map_map]
      rfl
    · rw [flatten_map_map, similarGo_join]
      simp [List.map_map]
      rw [show (Prod.fst ∘ fun fr : FrameInfo => (fr, hashOf fr.file_path)) =
        (id : FrameInfo → FrameInfo) from rfl, List.map_id]
    · intro c hc
      rw [List.mem_map] at hc
      obtain ⟨c', hc', rfl⟩ := hc
      have := similarGo_ne_nil _ _ _ _ c' hc'
      simpa using this
    · intro c hc a ha x hx va vx heqa heqx
      rw [List.mem_map] at hc
      obtain ⟨c', hc', rfl⟩ := hc
      obtain ⟨anc, tl, rfl, hsim⟩ :=
        similarGo_members _ _ _ _ (by intro y hy; simp at hy) c' hc'
      simp only [List.map_cons, List.head?_cons, Option.mem_some_iff] at ha
      subst ha
      simp only [List.map_cons, List.tail_cons, List.mem_map] at hx
      obtain ⟨px, hpx, rfl⟩ := hx
      have h1 := hsim px hpx
      have h2 : px.2 = hashOf px.1.file_path := hlink _ hc' px (by simp [hpx])
      have h3 : anc.2 = hashOf anc.1.file_path := hlink _ hc' anc (by simp)
      rw [h2, heqx] at h1
      rw [h3, heqa] at h1
      unfold are_similar at h1
      rw [← hD]
      exact of_decide_eq_true h1
    · rw [List.chain'_map]
      refine chain'_imp_of_mem _ (similarGo_chain _ _ _ _) ?_
      intro c hc c' hc' hB
      intro a ha b hb va vb heqa heqb
      rw [List.head?_map] at ha hb
      rw [Option.mem_map] at ha hb
      obtain ⟨pa, hpa, rfl⟩ := ha
      obtain ⟨pb, hpb, rfl⟩ := hb
      have hBf := hB pa hpa pb hpb
      have h2 : pa.2 = hashOf pa.1.file_path := hlink c hc pa (List.mem_of_mem_head? hpa)
      have h3 : pb.2 = hashOf pb.1.file_path := hlink c' hc' pb (List.mem_of_mem_head? hpb)
      rw [h2, heqa] at hBf
      rw [h3, heqb] at hBf
      unfold are_similar at hBf
      rw [hD] at hBf
      exact of_decide_eq_false hBf

/-- Witness for C3 at a one-frame input with threshold 0. -/
theorem claim_C3_greedy_anchor_grouping_witness :
    (FrameSimilarityDetector.init 0 16).max_hamming_distance =
        ⌊((16 * 16 : ℕ) : ℚ) * (1 - (0 : ℚ))⌋ ∧
      ∃ chunks : List (List FrameInfo),
        (detect_and_merge true (fun _ => some []) (FrameSimilarityDetector.init 0 16)
            [mkFrame 0 0 ("f0".data)]).groups = chunks.map create_group ∧
          chunks.flatten = [mkFrame 0 0 ("f0".data)] := by
  have h := claim_C3_greedy_anchor_grouping 0 16 (fun _ => some [])
    [mkFrame 0 0 ("f0".data)] (by simp) (by simp) (by decide) (by decide) (by simp)
  obtain ⟨h1, chunks, h2, h3, -, -, -⟩ := h
  exact ⟨h1, chunks, h2, h3⟩

theorem pyInt_mono {p q : ℚ} (h : p ≤ q) : pyInt p ≤ pyInt q := by
  unfold pyInt
  split_ifs with h1 h2 h2
  · exact Int.floor_mono h
  · exact absurd (le_trans h1 h) h2
  · have hc : ⌈p⌉ ≤ (0 : ℤ) := Int.ceil_le.mpr (by push_cast; linarith [not_le.mp h1])
    have hf : (0 : ℤ) ≤ ⌊q⌋ := Int.le_floor.mpr (by push_cast; linarith)
    exact le_trans hc hf
  · exact Int.ceil_mono h

set_option maxRecDepth 100000 in
/-- C4 counterexample: group counting is not monotone in the similarity
threshold.  At thresholds 63/64 ≤ 253/256 (Hamming cutoffs 4 and 3 for
16×16-bit hashes) the stricter threshold produces strictly fewer groups on
a concrete four-frame input, because the early split relocates the group
anchor. -/
theorem claim_C4_counterexample :
    (63 : ℚ) / 64 ≤ 253 / 256 ∧
      (detect_and_merge true c4_hashOf (FrameSimilarityDetector.init (253 / 256) 16)
          c4_frames).merged_count <
        (detect_and_merge true c4_hashOf (FrameSimilarityDetector.init (63 / 64) 16)
          c4_frames).merged_count := by
  constructor
  · norm_num
  · have e1 : FrameSimilarityDetector.init (63 / 64) 16 =
        { similarity_threshold := 63 / 64, hash_size := 16, max_hamming_distance := 4 } := by
      unfold FrameSimilarityDetector.init pyInt
      simp only [FrameSimilarityDetector.mk.injEq]
      norm_num
    have e2 : FrameSimilarityDetector.init (253 / 256) 16 =
        { similarity_threshold := 253 / 256, hash_size := 16, max_hamming_distance := 3 } := by
      unfold FrameSimilarityDetector.init pyInt
      simp only [FrameSimilarityDetector.mk.injEq]
      norm_num
    rw [e1, e2]
    decide

/-- C4 amended: raising the similarity threshold makes every individual
join test stricter — the Hamming cutoff is antitone in the threshold, and
a hash pair similar at the higher threshold is similar at the lower — but
(per the counterexample) the number of output groups is not monotone. -/
theorem claim_C4_threshold_pointwise_antitone (t1 t2 : ℚ) (hs : ℕ) (h : t1 ≤ t2) :
    (FrameSimilarityDetector.init t2 hs).max_hamming_distance ≤
        (FrameSimilarityDetector.init t1 hs).max_hamming_distance ∧
      ∀ h1 h2 : Option Hash,
        are_similar (FrameSimilarityDetector.init t2 hs) h1 h2 = true →
        are_similar (FrameSimilarityDetector.init t1 hs) h1 h2 = true := by
  have hle : (FrameSimilarityDetector.init t2 hs).max_hamming_distance ≤
      (FrameSimilarityDetector.init t1 hs).max_hamming_distance := by
    unfold FrameSimilarityDetector.init
    exact pyInt_mono
      (mul_le_mul_of_nonneg_left (by linarith) (Nat.cast_nonneg _))
  refine ⟨hle, ?_⟩
  intro h1 h2 hsim
  cases h1 with
  | none => simp [are_similar] at hsim
  | some a =>
    cases h2 with
    | none => simp [are_similar] at hsim
    | some b =>
      simp only [are_similar, decide_eq_true_eq] at hsim ⊢
      exact le_trans hsim hle

/-- Witness for the amended C4 at thresholds 0 ≤ 1. -/
theorem claim_C4_threshold_pointwise_antitone_witness :
    (FrameSimilarityDetector.init 1 16).max_hamming_distance ≤
      (FrameSimilarityDetector.init 0 16).max_hamming_distance :=
  (claim_C4_threshold_pointwise_antitone 0 1 16 (by decide)).1

/-- Witness for C1: with a concrete oracle that fails once and then
succeeds, the retrying executor completes the concrete task with retry
count 1 and the second attempt's result stored. -/
theorem claim_C1_retry_policy_witness :
    (execute_task_with_retry failThenSucceed (freshTask 0 0)).1.status =
        TaskStatus.completed.value ∧
      (execute_task_with_retry failThenSucceed (freshTask 0 0)).1.result =
        some someAnalysis ∧
      (execute_task_with_retry failThenSucceed (freshTask 0 0)).1.retry_count = 1 := by
  have h := claim_C1_retry_policy failThenSucceed (freshTask 0 0) rfl
  exact h.2.2.1 someAnalysis (by intro x; simp [failThenSucceed]) (by simp [failThenSucceed])

theorem mem_of_getLast?_eq {l : Str} {c : Char} (h : l.getLast? = some c) : c ∈ l := by
  obtain ⟨hne, heq⟩ := List.mem_getLast?_eq_getLast (show c ∈ l.getLast? from h)
  rw [heq]
  exact List.getLast_mem hne

theorem head?_ne_of_not_mem {l : Str} {c : Char} (h : c ∉ l) : l.head? ≠ some c := by
  intro he
  exact h (List.mem_of_mem_head? (show c ∈ l.head? from he))

theorem getLast?_ne_of_not_mem {l : Str} {c : Char} (h : c ∉ l) : l.getLast? ≠ some c :=
  fun he => h (mem_of_getLast?_eq he)

theorem countMk_append (a b : Str) :
    countMk (a ++ b) = countMk a + countMk b +
      (if a.getLast? = some '!' ∧ b.head? = some '[' then 1 else 0) := by
  induction a with
  | nil => simp [countMk]
  | cons x a' ih =>
    cases a' with
    | nil =>
      have h1 : countMk ([x] ++ b) =
          (if x = '!' ∧ b.head? = some '[' then 1 else 0) + countMk b := rfl
      have h2 : countMk [x] = 0 := by simp [countMk]
      rw [h1, h2, List.getLast?_singleton]
      have hiff : (some x = some '!' ∧ b.head? = some '[') ↔
          (x = '!' ∧ b.head? = some '[') := by simp
      rw [if_congr hiff rfl rfl]
      omega
    | cons y t =>
      have hL : countMk ((x :: y :: t) ++ b) =
          (if x = '!' ∧ some y = some '[' then 1 else 0) + countMk ((y :: t) ++ b) := rfl
      have hR : countMk (x :: y :: t) =
          (if x = '!' ∧ some y = some '[' then 1 else 0) + countMk (y :: t) := rfl
      rw [hL, hR, ih, List.getLast?_cons_cons]
      omega

theorem countMk_eq_zero_of_not_mem {s : Str} (h : '[' ∉ s) : countMk s = 0 := by
  induction s with
  | nil => rfl
  | cons x rest ih =>
    have hrest : '[' ∉ rest := fun hm => h (List.mem_cons_of_mem x hm)
    simp only [countMk, ih hrest, Nat.add_zero]
    rw [if_neg]
    intro hcond
    exact hrest (List.mem_of_mem_head? (show '[' ∈ rest.head? from hcond.2))

theorem countMk_append_r (a b : Str) (hb : b.head? ≠ some '[') :
    countMk (a ++ b) = countMk a + countMk b := by
  rw [countMk_append, if_neg (fun hcond => hb hcond.2), Nat.add_zero]

theorem countMk_append_l (a b : Str) (ha : a.getLast? ≠ some '!') :
    countMk (a ++ b) = countMk a + countMk b := by
  rw [countMk_append, if_neg (fun hcond => ha hcond.1), Nat.add_zero]

theorem noMk_nil : noMk [] := by simp [noMk]

theorem noMk_cons {c : Char} {s : Str} (h1 : c ≠ '!') (h2 : c ≠ '[') (hs : noMk s) :
    noMk (c :: s) := by
  obtain ⟨ha, hb⟩ := hs
  refine ⟨?_, ?_⟩
  · rw [List.mem_cons]
    rintro (he | he)
    · exact h1 he.symm
    · exact ha he
  · rw [List.mem_cons]
    rintro (he | he)
    · exact h2 he.symm
    · exact hb he

theorem noMk_append {a b : Str} (ha : noMk a) (hb : noMk b) : noMk (a ++ b) := by
  obtain ⟨ha1, ha2⟩ := ha
  obtain ⟨hb1, hb2⟩ := hb
  constructor <;> (rw [List.mem_append]; rintro (h | h)) <;> simp_all

theorem noMk_head? {s : Str} (h : noMk s) : s.head? ≠ some '[' :=
  head?_ne_of_not_mem h.2

theorem noMk_getLast? {s : Str} (h : noMk s) : s.getLast? ≠ some '!' :=
  getLast?_ne_of_not_mem h.1

theorem noMk_countMk {s : Str} (h : noMk s) : countMk s = 0 :=
  countMk_eq_zero_of_not_mem h.2

theorem digitChar_ok (d : ℕ) : Nat.digitChar d ≠ '!' ∧ Nat.digitChar d ≠ '[' := by
  by_cases h : d < 16
  · interval_cases d <;> exact ⟨by decide, by decide⟩
  · have hne : ∀ k : ℕ, k < 16 → ¬ d = k := fun k hk he => h (by omega)
    have hstar : Nat.digitChar d = '*' := by
      unfold Nat.digitChar
      rw [if_neg (hne 0 (by decide)), if_neg (hne 1 (by decide)), if_neg (hne 2 (by decide)),
        if_neg (hne 3 (by decide)), if_neg (hne 4 (by decide)), if_neg (hne 5 (by decide)),
        if_neg (hne 6 (by decide)), if_neg (hne 7 (by decide)), if_neg (hne 8 (by decide)),
        if_neg (hne 9 (by decide)), if_neg (hne 10 (by decide)), if_neg (hne 11 (by decide)),
        if_neg (hne 12 (by decide)), if_neg (hne 13 (by decide)), if_neg (hne 14 (by decide)),
        if_neg (hne 15 (by decide))]
    rw [hstar]
    exact ⟨by decide, by decide⟩

theorem noMk_natCharsAux (fuel n : ℕ) : noMk (natCharsAux fuel n) := by
  induction fuel generalizing n with
  | zero => exact noMk_nil
  | succ fuel ih =>
    unfold natCharsAux
    split
    · exact noMk_cons (digitChar_ok n).1 (digitChar_ok n).2 noMk_nil
    · exact noMk_append (ih (n / 10))
        (noMk_cons (digitChar_ok (n % 10)).1 (digitChar_ok (n % 10)).2 noMk_nil)

theorem noMk_natChars (n : ℕ) : noMk (natChars n) := noMk_natCharsAux (n + 1) n

theorem noMk_intChars (i : ℤ) : noMk (intChars i) := by
  unfold intChars
  split
  · exact noMk_cons (by decide) (by decide) (noMk_natChars _)
  · exact noMk_natChars _

theorem noMk_pad2 (i : ℤ) : noMk (pad2 i) := by
  unfold pad2
  split
  · exact noMk_cons (by decide) (by decide) (noMk_natChars _)
  · exact noMk_intChars i

theorem noMk_commaRev (i : ℕ) (s : Str) (hs : noMk s) : noMk (commaRev i s) := by
  induction s generalizing i with
  | nil => exact noMk_nil
  | cons c cs ih =>
    have hc1 : c ≠ '!' := fun he => hs.1 (by simp [he])
    have hc2 : c ≠ '[' := fun he => hs.2 (by simp [he])
    have hcs : noMk cs :=
      ⟨fun hm => hs.1 (List.mem_cons_of_mem c hm), fun hm => hs.2 (List.mem_cons_of_mem c hm)⟩
    unfold commaRev
    split
    · exact noMk_cons (by decide) (by decide) (noMk_cons hc1 hc2 (ih (i + 1) hcs))
    · exact noMk_cons hc1 hc2 (ih (i + 1) hcs)

theorem noMk_reverse {s : Str} (hs : noMk s) : noMk s.reverse := by
  obtain ⟨h1, h2⟩ := hs
  exact ⟨by simpa using h1, by simpa using h2⟩

theorem noMk_commaNat (n : ℕ) : noMk (commaNat n) :=
  noMk_reverse (noMk_commaRev 0 _ (noMk_reverse (noMk_natChars n)))

theorem noMk_format_thousands (n : ℤ) : noMk (format_thousands n) := by
  unfold format_thousands
  split
  · exact noMk_cons (by decide) (by decide) (noMk_commaNat _)
  · exact noMk_commaNat _

theorem noMk_format_duration (seconds : ℤ) : noMk (format_duration seconds) := by
  unfold format_duration
  dsimp only
  split
  · exact noMk_append (noMk_append (noMk_append (noMk_append (noMk_intChars _)
      (by decide)) (noMk_pad2 _)) (by decide)) (noMk_pad2 _)
  · exact noMk_append (noMk_append (noMk_intChars _) (by decide)) (noMk_pad2 _)

theorem noMk_format_time (seconds : ℚ) : noMk (format_time seconds) := by
  unfold format_time
  dsimp only
  exact noMk_append (noMk_append (noMk_append (noMk_append (noMk_pad2 _)
    (by decide)) (noMk_pad2 _)) (by decide)) (noMk_pad2 _)

theorem noMk_basename {p : Str} (hp : noMk p) : noMk (basename p) := by
  unfold basename
  suffices h : ∀ (l acc : Str), noMk acc → (∀ c ∈ l, c ≠ '!' ∧ c ≠ '[') →
      noMk (l.foldl (fun acc c => if c = '/' then [] else acc ++ [c]) acc) by
    refine h p [] noMk_nil ?_
    intro c hc
    exact ⟨fun he => hp.1 (he ▸ hc), fun he => hp.2 (he ▸ hc)⟩
  intro l
  induction l with
  | nil => intro acc hacc _; exact hacc
  | cons x xs ih =>
    intro acc hacc hl
    simp only [List.foldl_cons]
    refine ih _ ?_ (fun c hc => hl c (List.mem_cons_of_mem x hc))
    split
    · exact noMk_nil
    · exact noMk_append hacc
        (noMk_cons (hl x (by simp)).1 (hl x (by simp)).2 noMk_nil)

theorem noMk_pyJoin {sep : Str} (hsep : noMk sep) :
    ∀ {ls : List Str}, (∀ s ∈ ls, noMk s) → noMk (pyJoin sep ls) := by
  intro ls
  induction ls with
  | nil => intro _; exact noMk_nil
  | cons s rest ih =>
    intro hall
    cases rest with
    | nil => exact hall s (by simp)
    | cons s₁ rest' =>
      unfold pyJoin
      exact noMk_append (noMk_append (hall s (by simp)) hsep)
        (ih (fun x hx => hall x (List.mem_cons_of_mem s hx)))

theorem noMk_get_transcript_for_time (tr : TranscriptionResult)
    (hseg : ∀ seg ∈ tr.segments, noMk seg.text) (a b : ℚ) :
    noMk (get_transcript_for_time tr a b) := by
  unfold get_transcript_for_time
  refine noMk_pyJoin (by decide) ?_
  intro s hs
  rw [List.mem_map] at hs
  obtain ⟨seg, hseg', rfl⟩ := hs
  exact hseg seg (List.mem_of_mem_filter hseg')

theorem countMk_pyJoin_nl :
    ∀ (ls : List Str), countMk (pyJoin ("\n".data) ls) = (ls.map countMk).sum := by
  intro ls
  induction ls with
  | nil => rfl
  | cons s rest ih =>
    cases rest with
    | nil => simp [pyJoin]
    | cons s₁ rest' =>
      unfold pyJoin
      rw [countMk_append_l _ _ (by
        rw [List.getLast?_append_of_ne_nil s (by decide)]
        decide)]
      rw [countMk_append_r s _ (by decide)]
      rw [ih]
      simp [countMk]

theorem sum_countMk_zero {ls : List Str} (h : ∀ s ∈ ls, noMk s) :
    (ls.map countMk).sum = 0 := by
  induction ls with
  | nil => rfl
  | cons s rest ih =>
    simp only [List.map_cons, List.sum_cons]
    rw [noMk_countMk (h s (by simp)), ih (fun x hx => h x (List.mem_cons_of_mem s hx))]

theorem noMk_generate_header (m : VideoMetadata) (hm : cleanVideoMetadata m) :
    noMk (generate_header m) := by
  obtain ⟨hb, htl, hau, hd, hp⟩ := hm
  unfold generate_header
  dsimp only
  refine noMk_pyJoin (by decide) ?_
  intro s hs
  rw [List.mem_append] at hs
  rcases hs with hs | hs
  · rw [List.mem_append] at hs
    rcases hs with hs | hs
    · simp only [List.mem_cons, List.not_mem_nil, or_false] at hs
      rcases hs with rfl | rfl | rfl | rfl | rfl | rfl | rfl | rfl | rfl | rfl | rfl |
          rfl | rfl | rfl <;>
      first
        | exact noMk_nil
        | decide
        | exact noMk_append (by decide) htl
        | exact noMk_append (noMk_append (by decide) hb) (by decide)
        | exact noMk_append (noMk_append (by decide) hau) (by decide)
        | exact noMk_append (noMk_append (by decide) (noMk_format_duration _)) (by decide)
        | exact noMk_append (noMk_append (by decide) (noMk_format_thousands _)) (by decide)
        | exact noMk_append (noMk_append (by decide) hp) (by decide)
    · by_cases hdesc : m.description ≠ []
      · rw [if_pos hdesc] at hs
        simp only [List.mem_cons, List.not_mem_nil, or_false] at hs
        rcases hs with rfl | rfl | rfl | rfl <;>
        first
          | exact noMk_nil
          | decide
          | exact noMk_append (by decide) hd
      · rw [if_neg hdesc] at hs
        simp at hs
  · simp only [List.mem_cons, List.not_mem_nil, or_false] at hs
    rcases hs with rfl | rfl | rfl | rfl | rfl | rfl | rfl | rfl | rfl | rfl <;>
    first
      | exact noMk_nil
      | decide

theorem noMk_get_relative_image_path {images_subdir p : Str} (hsub : noMk images_subdir)
    (hp : noMk p) : noMk (get_relative_image_path images_subdir p) :=
  noMk_append (noMk_append hsub (by decide)) (noMk_basename hp)

theorem countMk_image_line (ts ip : Str) (hts : noMk ts) (hip : noMk ip) :
    countMk ("![".data ++ ts ++ "](".data ++ ip ++ ")".data) = 1 := by
  rw [countMk_append_r ("![".data ++ ts ++ "](".data ++ ip) (")".data) (by decide)]
  rw [countMk_append_r ("![".data ++ ts ++ "](".data) ip (noMk_head? hip)]
  rw [countMk_append_r ("![".data ++ ts) ("](".data) (by decide)]
  rw [countMk_append_l ("![".data) ts (by decide)]
  rw [noMk_countMk hts, noMk_countMk hip]
  decide

theorem countMk_pyJoin_blocks (H A T : List Str) (imgline : Str)
    (hH : ∀ s ∈ H, noMk s) (hA : ∀ s ∈ A, noMk s) (hT : ∀ s ∈ T, noMk s)
    (himg : countMk imgline = 1) :
    countMk (pyJoin ("\n".data)
      (H ++ [[], imgline, []] ++ A ++ T ++ ["---".data, []])) = 1 := by
  rw [countMk_pyJoin_nl]
  simp only [List.map_append, List.sum_append, List.map_cons, List.map_nil,
    List.sum_cons, List.sum_nil]
  rw [sum_countMk_zero hH, sum_countMk_zero hA, sum_countMk_zero hT, himg]
  simp [countMk]

theorem noMk_err_msg (em : Option Str) (herr : ∀ e ∈ em, noMk e) :
    noMk (err_msg_text em) := by
  rcases em with _ | e
  · decide
  · show noMk (if e ≠ [] then e else "未知错误".data)
    split
    · exact herr e rfl
    · decide

theorem countMk_generate_frame_section (images_subdir : Str)
    (transcript : Option TranscriptionResult) (frame : FrameInfo)
    (result : ClaudeAnalysisResult) (group : Option FrameGroup)
    (hsub : noMk images_subdir) (hts : noMk frame.timestamp_str)
    (hpath : noMk frame.file_path) (hraw : noMk result.raw_response)
    (hpa : ∀ a ∈ result.parsed_analysis, noMk a.description ∧
      (∀ s ∈ a.text_content, noMk s) ∧ ∀ s ∈ a.key_points, noMk s)
    (herr : ∀ e ∈ result.error_message, noMk e)
    (htr : cleanTranscript transcript) :
    countMk (generate_frame_section images_subdir transcript frame result group) = 1 := by
  unfold generate_frame_section
  dsimp only
  refine countMk_pyJoin_blocks _ _ _ _ ?_ ?_ ?_ ?_
  · intro s hs
    split at hs
    · split at hs
      · simp only [List.mem_cons, List.not_mem_nil, or_false] at hs
        rcases hs with rfl | rfl | rfl
        · exact noMk_append (noMk_append (noMk_append (by decide)
            (noMk_format_time _)) (by decide)) (noMk_format_time _)
        · exact noMk_nil
        · exact noMk_append (noMk_append (by decide) (noMk_natChars _)) (by decide)
      · simp only [List.mem_cons, List.not_mem_nil, or_false] at hs
        rw [hs]
        exact noMk_append (by decide) hts
    · simp only [List.mem_cons, List.not_mem_nil, or_false] at hs
      rw [hs]
      exact noMk_append (by decide) hts
  · intro s hs
    split at hs
    · simp only [List.mem_cons, List.not_mem_nil, or_false] at hs
      rcases hs with rfl | rfl
      · exact hraw
      · exact noMk_nil
    · split at hs
      · rename_i hcond
        obtain ⟨hdesc, htext, hkeys⟩ := hpa _ (Option.get_mem hcond.2)
        rw [List.mem_append] at hs
        rcases hs with hs | hs
        · rw [List.mem_append] at hs
          rcases hs with hs | hs
          · split at hs
            · simp only [List.mem_cons, List.not_mem_nil, or_false] at hs
              rcases hs with rfl | rfl
              · exact noMk_append (by decide) hdesc
              · exact noMk_nil
            · simp at hs
          · split at hs
            · rw [List.mem_append, List.mem_append] at hs
              rcases hs with (hs | hs) | hs
              · simp only [List.mem_cons, List.not_mem_nil, or_false] at hs
                rw [hs]; decide
              · rw [List.mem_map] at hs
                obtain ⟨x, hx, rfl⟩ := hs
                exact noMk_append (by decide) (htext x hx)
              · simp only [List.mem_cons, List.not_mem_nil, or_false] at hs
                rw [hs]; exact noMk_nil
            · simp at hs
        · split at hs
          · rw [List.mem_append, List.mem_append] at hs
            rcases hs with (hs | hs) | hs
            · simp only [List.mem_cons, List.not_mem_nil, or_false] at hs
              rw [hs]; decide
            · rw [List.mem_map] at hs
              obtain ⟨x, hx, rfl⟩ := hs
              exact noMk_append (by decide) (hkeys x hx)
            · simp only [List.mem_cons, List.not_mem_nil, or_false] at hs
              rw [hs]; exact noMk_nil
          · simp at hs
      · simp only [List.mem_cons, List.not_mem_nil, or_false] at hs
        rcases hs with rfl | rfl
        · exact noMk_append (noMk_append (by decide)
            (noMk_err_msg result.error_message herr)) (by decide)
        · exact noMk_nil
  · intro s hs
    split at hs
    · rename_i tr
      split at hs
      · split at hs
        · simp only [List.mem_cons, List.not_mem_nil, or_false] at hs
          rcases hs with rfl | rfl | rfl | rfl
          · exact noMk_append (noMk_append (noMk_append (noMk_append (by decide)
              (noMk_format_time _)) (by decide)) (noMk_format_time _)) (by decide)
          · exact (by decide)
          · exact noMk_append (by decide)
              (noMk_get_transcript_for_time tr (htr tr rfl) _ _)
          · exact noMk_nil
        · simp at hs
      · simp at hs
    · simp at hs
  · exact countMk_image_line _ _ hts (noMk_get_relative_image_path hsub hpath)

theorem head?_append_left {a : Str} {c : Char} (b : Str) (h : a.head? = some c) :
    (a ++ b).head? = some c := by
  cases a with
  | nil => simp at h
  | cons x xs => exact h

theorem pyJoin_head_of (sep : Str) (s : Str) (rest : List Str) {c : Char}
    (h : s.head? = some c) : (pyJoin sep (s :: rest)).head? = some c := by
  cases rest with
  | nil => exact h
  | cons s₁ rest' =>
    unfold pyJoin
    exact head?_append_left _ (head?_append_left _ h)

theorem generate_frame_section_head (images_subdir : Str)
    (transcript : Option TranscriptionResult) (frame : FrameInfo)
    (result : ClaudeAnalysisResult) (group : Option FrameGroup) :
    (generate_frame_section images_subdir transcript frame result group).head? =
      some '#' := by
  unfold generate_frame_section
  dsimp only
  repeat' split
  all_goals simp only [List.cons_append, List.nil_append]
  all_goals exact pyJoin_head_of _ _ _ rfl

theorem sections_flatten_head_ne (images_subdir : Str)
    (transcript : Option TranscriptionResult) (items : List AppendItem) :
    ((sections_of images_subdir transcript items).flatten).head? ≠ some '[' := by
  cases items with
  | nil => simp [sections_of]
  | cons it rest =>
    have h := generate_frame_section_head images_subdir transcript it.frame
      it.result it.group
    have hcons : sections_of images_subdir transcript (it :: rest) =
        generate_frame_section images_subdir transcript it.frame it.result it.group ::
          sections_of images_subdir transcript rest := rfl
    rw [hcons, List.flatten_cons, head?_append_left _ h]
    decide

theorem countMk_sections_flatten (images_subdir : Str)
    (transcript : Option TranscriptionResult) (hsub : noMk images_subdir)
    (htr : cleanTranscript transcript) :
    ∀ items : List AppendItem, (∀ it ∈ items, cleanItem it) →
      countMk ((sections_of images_subdir transcript items).flatten) = items.length := by
  intro items
  induction items with
  | nil => intro _; rfl
  | cons it rest ih =>
    intro hall
    have hcons : sections_of images_subdir transcript (it :: rest) =
        generate_frame_section images_subdir transcript it.frame it.result it.group ::
          sections_of images_subdir transcript rest := rfl
    rw [hcons, List.flatten_cons,
      countMk_append_r _ _ (sections_flatten_head_ne images_subdir transcript rest)]
    obtain ⟨h1, h2, h3, h4, h5⟩ := hall it (by simp)
    rw [countMk_generate_frame_section images_subdir transcript it.frame it.result
      it.group hsub h1 h2 h3 h4 h5 htr]
    rw [ih (fun x hx => hall x (List.mem_cons_of_mem it hx))]
    simp [Nat.add_comm]

theorem flatten_take_prefix (L : List Str) (k : ℕ) :
    (L.take k).flatten <+: L.flatten :=
  ⟨(L.drop k).flatten, by rw [← List.flatten_append, List.take_append_drop]⟩

theorem append_run_spec :
    ∀ (items : List AppendItem) (st : ReportState), st.initialized = true →
      append_run st items =
        ({ st with
            file := st.file ++
              (sections_of st.images_subdir st.transcript items).flatten,
            frame_count := st.frame_count + items.length }, true) := by
  intro items
  induction items with
  | nil =>
    intro st h
    obtain ⟨file, initialized, frame_count, transcript, images_subdir⟩ := st
    simp [append_run, sections_of]
  | cons it rest ih =>
    intro st h
    obtain ⟨file, initialized, frame_count, transcript, images_subdir⟩ := st
    simp only [ReportState.mk.injEq] at h ⊢
    subst h
    have hstep : append_run
        (⟨file, true, frame_count, transcript, images_subdir⟩ : ReportState)
        (it :: rest) = append_run
        (⟨file ++ generate_frame_section images_subdir transcript it.frame it.result
            it.group, true, frame_count + 1, transcript, images_subdir⟩ : ReportState)
        rest := by
      unfold append_run
      rw [List.foldl_cons]
      have happ : append_frame_analysis
          (⟨file, true, frame_count, transcript, images_subdir⟩ : ReportState)
          it.frame it.result it.group =
          (true, ⟨file ++ generate_frame_section images_subdir transcript it.frame
            it.result it.group, true, frame_count + 1, transcript, images_subdir⟩) := by
        simp [append_frame_analysis]
      simp only [happ, Bool.and_true]
    rw [hstep, ih _ rfl]
    have hsec : sections_of images_subdir transcript (it :: rest) =
        generate_frame_section images_subdir transcript it.frame it.result it.group ::
          sections_of images_subdir transcript rest := rfl
    simp only [hsec, List.flatten_cons, List.append_assoc, List.length_cons]
    simp only [Prod.mk.injEq, ReportState.mk.injEq, true_and, and_true]
    omega

/-- C6: after a successful `initialize` the report file is the header
(containing no frame-section marker), every subsequent
`append_frame_analysis` call on marker-clean inputs succeeds and extends
the file purely at its end (so every prefix of the append sequence leaves
its sections as a prefix of the final file, and a crash loses at most the
in-flight append), and after N appends the file contains exactly N
frame-section markers. -/
theorem claim_C6_incremental_durability (st0 : ReportState) (m : VideoMetadata)
    (transcript : Option TranscriptionResult) (items : List AppendItem)
    (hm : cleanVideoMetadata m) (hsub : noMk st0.images_subdir)
    (htr : cleanTranscript transcript) (hitems : ∀ it ∈ items, cleanItem it) :
    (initialize_report st0 m transcript).1 = true ∧
      countMk (initialize_report st0 m transcript).2.file = 0 ∧
      (append_run (initialize_report st0 m transcript).2 items).2 = true ∧
      (append_run (initialize_report st0 m transcript).2 items).1.file =
        (initialize_report st0 m transcript).2.file ++
          (sections_of st0.images_subdir transcript items).flatten ∧
      (∀ k, (append_run (initialize_report st0 m transcript).2 (items.take k)).1.file
        <+: (append_run (initialize_report st0 m transcript).2 items).1.file) ∧
      countMk (append_run (initialize_report st0 m transcript).2 items).1.file =
        items.length := by
  have hst1 : (initialize_report st0 m transcript).2 =
      { st0 with
          file := generate_header m
          transcript := transcript
          initialized := true } := rfl
  have hrun := append_run_spec items (initialize_report st0 m transcript).2 rfl
  refine ⟨rfl, ?_, ?_, ?_, ?_, ?_⟩
  · exact noMk_countMk (noMk_generate_header m hm)
  · rw [hrun]
  · rw [hrun]; rfl
  · intro k
    rw [hrun, append_run_spec (items.take k) _ rfl]
    show (initialize_report st0 m transcript).2.file ++
        (sections_of st0.images_subdir transcript (items.take k)).flatten <+:
      (initialize_report st0 m transcript).2.file ++
        (sections_of st0.images_subdir transcript items).flatten
    have hmap : sections_of st0.images_subdir transcript (items.take k) =
        (sections_of st0.images_subdir transcript items).take k := by
      unfold sections_of
      rw [List.map_take]
    obtain ⟨t, ht⟩ := flatten_take_prefix
      (sections_of st0.images_subdir transcript items) k
    refine ⟨t, ?_⟩
    rw [List.append_assoc, hmap, ht]
  · rw [hrun]
    show countMk ((initialize_report st0 m transcript).2.file ++
      (sections_of st0.images_subdir transcript items).flatten) = items.length
    rw [countMk_append_r _ _ (sections_flatten_head_ne _ _ items),
      countMk_sections_flatten _ _ hsub htr items hitems]
    have hzero : countMk (initialize_report st0 m transcript).2.file = 0 :=
      noMk_countMk (noMk_generate_header m hm)
    rw [hzero]
    omega

/-- Witness for C6 at a concrete metadata record and a single clean
append. -/
theorem claim_C6_incremental_durability_witness :
    (initialize_report uninitState cleanMeta' none).1 = true ∧
      countMk (append_run (initialize_report uninitState cleanMeta' none).2
        [⟨mkFrame 0 0 ("f".data), cleanResult', none⟩]).1.file = 1 := by
  have h := claim_C6_incremental_durability uninitState cleanMeta' none
    [⟨mkFrame 0 0 ("f".data), cleanResult', none⟩]
    (by decide) (by decide) (by decide) (by decide)
  exact ⟨h.1, h.2.2.2.2.2⟩

theorem splitPyAux_ne_nil (p : Str) : ∀ (fuel : ℕ) (l : Str), splitPyAux p fuel l ≠ [] := by
  intro fuel
  induction fuel with
  | zero => intro l; simp [splitPyAux]
  | succ fuel ih =>
    intro l
    cases l with
    | nil => simp [splitPyAux]
    | cons x xs =>
      unfold splitPyAux
      split
      · simp
      · split
        · simp
        · simp

theorem splitPyAux_head_prefix (p : Str) :
    ∀ (fuel : ℕ) (l : Str), (splitPyAux p fuel l).headD [] <+: l := by
  intro fuel
  induction fuel with
  | zero => intro l; exact List.prefix_refl l
  | succ fuel ih =>
    intro l
    cases l with
    | nil => exact List.nil_prefix
    | cons x xs =>
      unfold splitPyAux
      split
      · exact List.nil_prefix
      · rcases hsp : splitPyAux p fuel xs with _ | ⟨h, t⟩
        · exact absurd hsp (splitPyAux_ne_nil p fuel xs)
        · have hh := ih xs
          rw [hsp] at hh
          exact List.cons_prefix_cons.mpr ⟨rfl, hh⟩

theorem replacePyAux_eq_pyJoin_splitPyAux (p s : Str) :
    ∀ (fuel : ℕ) (l : Str), replacePyAux p s fuel l = pyJoin s (splitPyAux p fuel l) := by
  intro fuel
  induction fuel with
  | zero => intro l; rfl
  | succ fuel ih =>
    intro l
    cases l with
    | nil => rfl
    | cons x xs =>
      unfold replacePyAux splitPyAux
      split
      · rcases hsp : splitPyAux p fuel (xs.drop (p.length - 1)) with _ | ⟨h, t⟩
        · exact absurd hsp (splitPyAux_ne_nil p fuel _)
        · rw [ih, hsp]
          show s ++ pyJoin s (h :: t) = [] ++ s ++ pyJoin s (h :: t)
          simp
      · rcases hsp : splitPyAux p fuel xs with _ | ⟨h, t⟩
        · exact absurd hsp (splitPyAux_ne_nil p fuel xs)
        · rw [ih, hsp]
          cases t with
          | nil => rfl
          | cons t₀ t' =>
            show x :: ((h ++ s) ++ pyJoin s (t₀ :: t')) =
              ((x :: h) ++ s) ++ pyJoin s (t₀ :: t')
            simp

theorem infix_iff_exists_drop {p m : Str} : p <:+: m ↔ ∃ i, p <+: m.drop i := by
  constructor
  · rintro ⟨u, v, huv⟩
    refine ⟨u.length, ⟨v, ?_⟩⟩
    rw [← huv, List.append_assoc, List.drop_left]
  · rintro ⟨i, t, ht⟩
    exact ⟨m.take i, t, by rw [List.append_assoc, ht, List.take_append_drop]⟩

theorem splitPyAux_pieces_free (p : Str) (hp : p ≠ []) :
    ∀ (fuel : ℕ) (l : Str), l.length ≤ fuel →
      ∀ piece ∈ splitPyAux p fuel l, ¬ p <:+: piece := by
  intro fuel
  induction fuel with
  | zero =>
    intro l hl piece hpiece
    have : l = [] := List.eq_nil_of_length_eq_zero (Nat.le_zero.mp hl)
    subst this
    simp [splitPyAux] at hpiece
    subst hpiece
    intro hinf
    exact hp (List.eq_nil_of_infix_nil hinf)
  | succ fuel ih =>
    intro l hl piece hpiece
    cases l with
    | nil =>
      simp [splitPyAux] at hpiece
      subst hpiece
      intro hinf
      exact hp (List.eq_nil_of_infix_nil hinf)
    | cons x xs =>
      unfold splitPyAux at hpiece
      split at hpiece
      · rcases List.mem_cons.mp hpiece with rfl | hpiece
        · intro hinf
          exact hp (List.eq_nil_of_infix_nil hinf)
        · exact ih _ (by
            have := List.length_drop (p.length - 1) xs
            simp only [List.length_cons] at hl
            omega) piece hpiece
      · rename_i hguard
        rcases hsp : splitPyAux p fuel xs with _ | ⟨h, t⟩
        · exact absurd hsp (splitPyAux_ne_nil p fuel xs)
        · rw [hsp] at hpiece
          have hxs : xs.length ≤ fuel := by
            simp only [List.length_cons] at hl
            omega
          rcases List.mem_cons.mp hpiece with rfl | hpiece
          · intro hinf
            rcases infix_iff_exists_drop.mp hinf with ⟨i, hpre⟩
            cases i with
            | zero =>
              have hhd := splitPyAux_head_prefix p fuel xs
              rw [hsp] at hhd
              have : (x :: h) <+: (x :: xs) := List.cons_prefix_cons.mpr ⟨rfl, hhd⟩
              exact hguard (hpre.trans this)
            | succ i =>
              have : p <:+: h := infix_iff_exists_drop.mpr ⟨i, hpre⟩
              exact ih xs hxs h (by rw [hsp]; simp) this
          · exact ih xs hxs piece (by rw [hsp]; exact List.mem_cons_of_mem h hpiece)

theorem splitPyAux_two_le (p : Str) (hp : p ≠ []) :
    ∀ (fuel : ℕ) (l : Str), l.length ≤ fuel → p <:+: l →
      2 ≤ (splitPyAux p fuel l).length := by
  intro fuel
  induction fuel with
  | zero =>
    intro l hl hinf
    have : l = [] := List.eq_nil_of_length_eq_zero (Nat.le_zero.mp hl)
    subst this
    exact absurd (List.eq_nil_of_infix_nil hinf) hp
  | succ fuel ih =>
    intro l hl hinf
    cases l with
    | nil => exact absurd (List.eq_nil_of_infix_nil hinf) hp
    | cons x xs =>
      unfold splitPyAux
      split
      · rcases hsp : splitPyAux p fuel (xs.drop (p.length - 1)) with _ | ⟨h, t⟩
        · exact absurd hsp (splitPyAux_ne_nil p fuel _)
        · simp
      · rename_i hguard
        have hxs : xs.length ≤ fuel := by
          simp only [List.length_cons] at hl
          omega
        have hinfxs : p <:+: xs := by
          rcases infix_iff_exists_drop.mp hinf with ⟨i, hpre⟩
          cases i with
          | zero => exact absurd hpre hguard
          | succ i => exact infix_iff_exists_drop.mpr ⟨i, hpre⟩
        have h2 := ih xs hxs hinfxs
        rcases hsp : splitPyAux p fuel xs with _ | ⟨h, t⟩
        · exact absurd hsp (splitPyAux_ne_nil p fuel xs)
        · rw [hsp] at h2
          simp only [List.length_cons] at h2 ⊢
          omega

theorem infix_pyJoin_of_two_le (s : Str) (a b : Str) (t : List Str) :
    s <:+: pyJoin s (a :: b :: t) := by
  show s <:+: a ++ s ++ pyJoin s (b :: t)
  exact ⟨a, pyJoin s (b :: t), rfl⟩

theorem infix_append_cases {p a b : Str} (h : p <:+: a ++ b) :
    p <:+: a ∨ p <:+: b ∨
      ∃ p1 p2, p = p1 ++ p2 ∧ p1 ≠ [] ∧ p2 ≠ [] ∧ p1 <:+ a ∧ p2 <+: b := by
  obtain ⟨u, v, huv⟩ := h
  by_cases h1 : u.length + p.length ≤ a.length
  · left
    have ha : a = (u ++ p ++ v).take a.length := by rw [huv, List.take_left']; rfl
    rw [List.append_assoc, List.take_append_eq_append_take,
      List.take_append_eq_append_take] at ha
    rw [List.take_of_length_le (by omega), List.take_of_length_le (by omega)] at ha
    exact ⟨u, (v.take (a.length - u.length - p.length)), by
      rw [List.append_assoc]; exact ha.symm⟩
  · by_cases h2 : a.length ≤ u.length
    · right; left
      have hb : b = (u ++ p ++ v).drop a.length := by
        rw [huv, List.drop_left']; rfl
      rw [List.append_assoc, List.drop_append_eq_append_drop] at hb
      rw [show a.length - u.length = 0 from by omega, List.drop_zero] at hb
      exact ⟨u.drop a.length, v, by rw [hb, List.append_assoc]⟩
    · right; right
      refine ⟨p.take (a.length - u.length), p.drop (a.length - u.length),
        (List.take_append_drop _ p).symm, ?_, ?_, ?_, ?_⟩
      · have : (p.take (a.length - u.length)).length = a.length - u.length := by
          rw [List.length_take]
          omega
        intro he
        rw [he] at this
        simp at this
        omega
      · have : (p.drop (a.length - u.length)).length = p.length - (a.length - u.length) := by
          rw [List.length_drop]
        intro he
        rw [he] at this
        simp at this
        omega
      · have ha : a = (u ++ p ++ v).take a.length := by rw [huv, List.take_left']; rfl
        rw [List.append_assoc, List.take_append_eq_append_take,
          List.take_append_eq_append_take] at ha
        rw [List.take_of_length_le (by omega)] at ha
        rw [show a.length - u.length - p.length = 0 from by omega, List.take_zero,
          List.append_nil] at ha
        exact ⟨u, ha.symm⟩
      · have hb : b = (u ++ p ++ v).drop a.length := by
          rw [huv, List.drop_left']; rfl
        rw [List.append_assoc, List.drop_append_eq_append_drop] at hb
        rw [List.drop_of_length_le (by omega), List.drop_append_eq_append_drop] at hb
        rw [show a.length - u.length - p.length = 0 from by omega, List.drop_zero,
          List.nil_append] at hb
        exact ⟨v, hb.symm⟩

theorem infix_head_mem {p m : Str} {c : Char} (h : (c :: p) <:+: m) : c ∈ m :=
  h.subset (by simp)

theorem no_infix_pyJoin (p s : Str) (hp : p ≠ []) (hs : s ≠ [])
    (hdisj : ∀ c ∈ s, c ∉ p) :
    ∀ pieces : List Str, (∀ piece ∈ pieces, ¬ p <:+: piece) →
      ¬ p <:+: pyJoin s pieces := by
  intro pieces
  induction pieces with
  | nil =>
    intro _ hinf
    exact hp (List.eq_nil_of_infix_nil hinf)
  | cons a rest ihp =>
    intro hpieces hinf
    cases rest with
    | nil => exact hpieces a (by simp) hinf
    | cons b t =>
      have hinf' : p <:+: (a ++ s) ++ pyJoin s (b :: t) := hinf
      rcases infix_append_cases hinf' with hc | hc | hc
      · rcases infix_append_cases hc with hc2 | hc2 | hc2
        · exact hpieces a (by simp) hc2
        · rcases p with _ | ⟨c, p'⟩
          · exact hp rfl
          · exact hdisj c (infix_head_mem hc2) (by simp)
        · obtain ⟨p1, p2, hpeq, hp1, hp2, hsuf, hpre⟩ := hc2
          rcases p2 with _ | ⟨d, p2'⟩
          · exact hp2 rfl
          · have hdmem : d ∈ s := hpre.subset (by simp)
            have hdp : d ∈ p := by rw [hpeq]; simp
            exact hdisj d hdmem hdp
      · exact ihp (fun piece hpc => hpieces piece (List.mem_cons_of_mem a hpc)) hc
      · obtain ⟨p1, p2, hpeq, hp1, hp2, hsuf, hpre⟩ := hc
        rcases hgl : p1.getLast? with _ | d
        · rcases p1 with _ | ⟨e, p1'⟩
          · exact hp1 rfl
          · simp [List.getLast?_eq_getLast] at hgl
        · have hdp1 : d ∈ p1 := mem_of_getLast?_eq hgl
          have hdp : d ∈ p := by rw [hpeq]; exact List.mem_append_left p2 hdp1
          have hds : d ∈ s := by
            obtain ⟨w, hw⟩ := hsuf
            have : (a ++ s).getLast? = s.getLast? :=
              List.getLast?_append_of_ne_nil a hs
            have hgl2 : (a ++ s).getLast? = some d := by
              rw [← hw, List.getLast?_append_of_ne_nil w hp1, hgl]
            rw [this] at hgl2
            exact mem_of_getLast?_eq hgl2
          exact hdisj d hds hdp

set_option maxRecDepth 200000 in
/-- C7 counterexample: `insert_summary` uses Python `str.replace`, which
replaces EVERY occurrence of the placeholder, not just the first.  On a
report initialized from metadata whose description embeds the placeholder,
the file contains the placeholder twice; `insert_summary` then inserts the
summary text twice, and the result differs from a replace-first operation. -/
theorem claim_C7_counterexample :
    countSub summary_placeholder (initialize_report uninitState dupMeta none).2.file = 2 ∧
    (insert_summary (initialize_report uninitState dupMeta none).2 ("XYZQ".data)).1 = true ∧
    countSub ("XYZQ".data)
      (insert_summary (initialize_report uninitState dupMeta none).2 ("XYZQ".data)).2.file = 2 ∧
    (insert_summary (initialize_report uninitState dupMeta none).2 ("XYZQ".data)).2.file ≠
      spec_replace_first summary_placeholder ("XYZQ".data)
        (initialize_report uninitState dupMeta none).2.file := by
  decide

/-- C7 (amended): on an initialized report whose file contains the
placeholder, `insert_summary text` succeeds and rewrites the file with
every leftmost non-overlapping occurrence of the placeholder replaced by
`text` (Python replace-all, not replace-first); when `text` is non-empty
and shares no character with the placeholder, the resulting file contains
`text` and no longer contains the placeholder token. -/
theorem claim_C7_replace_all (st : IncrementalReport.ReportState) (text : Str)
    (hinit : st.initialized = true)
    (hocc : summary_placeholder <:+: st.file)
    (htext : text ≠ [])
    (hdisj : ∀ c ∈ text, c ∉ summary_placeholder) :
    (insert_summary st text).1 = true ∧
    (insert_summary st text).2.file = replacePy summary_placeholder text st.file ∧
    text <:+: (insert_summary st text).2.file ∧
    ¬ summary_placeholder <:+: (insert_summary st text).2.file := by
  have hplc : summary_placeholder ≠ [] := by decide
  have hres : insert_summary st text =
      (true, { st with file := replacePy summary_placeholder text st.file }) := by
    unfold insert_summary
    rw [if_neg (by simp [hinit]), if_pos hocc]
  rw [hres]
  refine ⟨rfl, rfl, ?_, ?_⟩
  · show text <:+: replacePy summary_placeholder text st.file
    unfold replacePy
    rw [replacePyAux_eq_pyJoin_splitPyAux]
    have h2 := splitPyAux_two_le summary_placeholder hplc (st.file.length + 1) st.file
      (by omega) hocc
    rcases hsp : splitPyAux summary_placeholder (st.file.length + 1) st.file with
      _ | ⟨a, _ | ⟨b, t⟩⟩
    · rw [hsp] at h2; simp at h2
    · rw [hsp] at h2; simp at h2
    · exact infix_pyJoin_of_two_le text a b t
  · show ¬ summary_placeholder <:+: replacePy summary_placeholder text st.file
    unfold replacePy
    rw [replacePyAux_eq_pyJoin_splitPyAux]
    exact no_infix_pyJoin summary_placeholder text hplc htext hdisj _
      (splitPyAux_pieces_free summary_placeholder hplc (st.file.length + 1) st.file
        (by omega))

set_option maxRecDepth 200000 in
/-- C7 witness: a freshly initialized report contains the placeholder, and
inserting the summary text OK removes every occurrence of it. -/
theorem claim_C7_replace_all_witness :
    summary_placeholder <:+: (initialize_report uninitState cleanMeta' none).2.file ∧
    ¬ summary_placeholder <:+:
      (insert_summary (initialize_report uninitState cleanMeta' none).2 ("OK".data)).2.file :=
  ⟨by decide,
   (claim_C7_replace_all (initialize_report uninitState cleanMeta' none).2 ("OK".data)
     (by decide) (by decide) (by decide) (by decide)).2.2.2⟩

end MoYu
